import Mathlib

/-!
Shallow embedding of the dnx native bootstrapper.

The development follows three translation units of the repository:

* `src/dnx.common/utils.cpp`: string and path helpers, the table of bootstrap options;
* `src/dnx/main.cpp`: the bootstrap option scan of the process entry point;
* `src/dnx.coreclr/dnx.coreclr.cpp`: the trusted platform assemblies, the start of the host,
  `ExecuteMain` and `CallApplicationMain`.

Strings (`dnx::xstring_t`, `std::wstring`, and the contents of a NUL terminated
`dnx::char_t*`) are lists of characters.  Calls that leave the program (the file system, the
operating system loader, the CLR hosting interface, the managed entry point) are answered by an
explicit `World`, and every such call is recorded in a list of `Event`s.  The definitions come
first, the theorems follow.
-/

namespace dnx

/-- The string type `dnx::xstring_t`: the sequence of code units, without a terminator. -/
abbrev xstring_t := List Char

namespace utils

/-! ## `utils.cpp` -/

/-- The C library `tolower` in the "C" locale: only `A` .. `Z` are changed. -/
def tolower (c : Char) : Char :=
  if 65 ≤ c.toNat ∧ c.toNat ≤ 90 then Char.ofNat (c.toNat + 32) else c

/-- The function `strings_equal_ignore_case(s1, s2)`, that is `strcasecmp(s1, s2) == 0`
(`_wcsicmp(s1, s2) == 0` on Windows).
The library routine walks both strings together, compares the lower-cased code units and
reports `0` exactly when it reaches both terminators without having met a difference. -/
def strings_equal_ignore_case : xstring_t → xstring_t → Bool
  | [], [] => true
  | c1 :: s1, c2 :: s2 =>
    if tolower c1 = tolower c2 then strings_equal_ignore_case s1 s2 else false
  | [], _ :: _ => false
  | _ :: _, [] => false

/-- The function `ends_with_slash(path)`. -/
def ends_with_slash (path : xstring_t) : Bool :=
  if path.length > 0 then
    match path.getLast? with
    | some last => last == '\\' || last == '/'
    | none => false
  else
    false

/-- The function `path_combine(path1, path2)`.  `PATH_SEPARATOR` is defined in `xplat.h`, which
is not part of the sources at hand; it is taken as a parameter. -/
def path_combine (PATH_SEPARATOR : xstring_t) (path1 path2 : xstring_t) : xstring_t :=
  if path1.length = 0 then
    path2
  else if path2.length = 0 then
    path1
  else
    let path := if ends_with_slash path1 then path1.take (path1.length - 1) else path1
    path ++ PATH_SEPARATOR ++
      (if path2.head? = some '\\' ∨ path2.head? = some '/' then path2.drop 1 else path2)

/-- The function `get_bootstrapper_option_arg_count(option_name)`. -/
def get_bootstrapper_option_arg_count (option_name : xstring_t) : Int :=
  if strings_equal_ignore_case option_name "--appbase".toList ||
      strings_equal_ignore_case option_name "--lib".toList ||
      strings_equal_ignore_case option_name "--packages".toList ||
      strings_equal_ignore_case option_name "--configuration".toList ||
      strings_equal_ignore_case option_name "--framework".toList ||
      strings_equal_ignore_case option_name "--port".toList ||
      strings_equal_ignore_case option_name "--project".toList ||
      strings_equal_ignore_case option_name "-p".toList then
    1
  else if strings_equal_ignore_case option_name "--watch".toList ||
      strings_equal_ignore_case option_name "--debug".toList ||
      strings_equal_ignore_case option_name "--bootstrapper-debug".toList ||
      strings_equal_ignore_case option_name "--help".toList ||
      strings_equal_ignore_case option_name "-h".toList ||
      strings_equal_ignore_case option_name "-?".toList ||
      strings_equal_ignore_case option_name "--version".toList then
    0
  else
    -- It isn't a bootstrapper option
    -1

/-! ### Vocabulary of the statements -/

/-- The option names that take one argument, as the specification lists them (the names of the first
`if` of `get_bootstrapper_option_arg_count`, in its order). -/
def one_arg_options : List xstring_t :=
  ["--appbase".toList, "--lib".toList, "--packages".toList, "--configuration".toList,
   "--framework".toList, "--port".toList, "--project".toList, "-p".toList]

/-- The option names that take no argument, as the specification lists them (the names of the second
`if` of `get_bootstrapper_option_arg_count`, in its order). -/
def flag_options : List xstring_t :=
  ["--watch".toList, "--debug".toList, "--bootstrapper-debug".toList, "--help".toList,
   "-h".toList, "-?".toList, "--version".toList]

/-- Two code units are the same up to the case of an ASCII letter: they are equal, or one is
an upper-case letter `A` .. `Z` and the other the lower-case letter 32 places further. -/
def SameUpToAsciiCase (a b : Char) : Prop :=
  a = b ∨ (65 ≤ a.toNat ∧ a.toNat ≤ 90 ∧ b.toNat = a.toNat + 32) ∨
    (65 ≤ b.toNat ∧ b.toNat ≤ 90 ∧ a.toNat = b.toNat + 32)

/-- Two strings are equal ignoring ASCII letter case: they have the same length and agree
position by position up to the case of an ASCII letter. -/
def EqIgnoreCase (s t : xstring_t) : Prop :=
  List.Forall₂ SameUpToAsciiCase s t

end utils

/-! ## `main.cpp`: the bootstrap option scan -/

namespace entry

open utils

/-- How the `for` loop of the entry point is left. -/
inductive ScanExit
  /-- The loop condition `i < argc` failed. -/
  | loop_condition
  /-- The `break` taken when `arg_count == -1`. -/
  | not_an_option
  /-- The `break` taken after `WaitForDebuggerToAttach()`. -/
  | debugger
  deriving DecidableEq

/-- What the scan did: the value of `i` when the loop is left, the indices `i` at which
`argv[i]` was handed to `get_bootstrapper_option_arg_count` (in the order of the calls), and
the way the loop was left. -/
structure ScanResult where
  i : Nat
  examined : List Nat
  exit : ScanExit
  deriving DecidableEq

/-- Records one more examined index in front of the indices examined later. -/
def ScanResult.after (j : Nat) (r : ScanResult) : ScanResult :=
  { r with examined := j :: r.examined }

/-- The loop `for (int i = 1; i < argc; ++i) { ... }` of the entry point, taken up at the loop
test for a given value of `i`; `argc` is `argv.length`.  `CORECLR` stands for the build flags
`CORECLR_WIN`, `CORECLR_LINUX`, `CORECLR_DARWIN` (one of them defined): it removes the `--debug`
alternative.  The first argument bounds the number of loop tests. -/
def scan_loop (CORECLR : Bool) (argv : List xstring_t) : Nat → Nat → Option ScanResult
  | 0, _ => none
  | fuel + 1, i =>
    if h : i < argv.length then
      let arg_count := get_bootstrapper_option_arg_count argv[i]
      -- not a bootstrapper option
      if arg_count = -1 then
        some ⟨i, [i], ScanExit.not_an_option⟩
      else if arg_count > 0 then
        -- skip path argument: `i += arg_count; continue;` and then `++i`
        (scan_loop CORECLR argv fuel (i + arg_count.toNat + 1)).map (ScanResult.after i)
      else if strings_equal_ignore_case argv[i] "--bootstrapper-debug".toList ||
          (!CORECLR && strings_equal_ignore_case argv[i] "--debug".toList) then
        some ⟨i, [i], ScanExit.debugger⟩
      else
        (scan_loop CORECLR argv fuel (i + 1)).map (ScanResult.after i)
    else
      some ⟨i, [], ScanExit.loop_condition⟩

/-- The scan of the entry point on `argv` (with `argv[0]` the executable name): the loop
starts with `i = 1`; `argc + 1` loop tests are always enough. -/
def DnxMain_scan (CORECLR : Bool) (argv : List xstring_t) : Option ScanResult :=
  scan_loop CORECLR argv (argv.length + 1) 1

/-! ### Vocabulary of the statements -/

/-- The result of `get_bootstrapper_option_arg_count(argv[j])`, when `j` is an index of
`argv`. -/
def arg_count_at (argv : List xstring_t) (j : Nat) : Option Int :=
  argv[j]?.map get_bootstrapper_option_arg_count

/-- The token is an option on which the entry point waits for a debugger:
`--bootstrapper-debug`, and `--debug` in a build without the `CORECLR` flags (ignoring case). -/
def waits_for_debugger (CORECLR : Bool) (arg : xstring_t) : Bool :=
  strings_equal_ignore_case arg "--bootstrapper-debug".toList ||
    (!CORECLR && strings_equal_ignore_case arg "--debug".toList)

/-- The token at index `j` of `argv` is an option on which the entry point waits for a
debugger. -/
def debugger_at (CORECLR : Bool) (argv : List xstring_t) (j : Nat) : Bool :=
  match argv[j]? with
  | some arg => waits_for_debugger CORECLR arg
  | none => false

/-- The step from one examined index to the next one: the token at `j` is an option other than
a debugger option, and the next examined index is `j + 2` after an option with one argument and
`j + 1` otherwise. -/
def ScanStep (CORECLR : Bool) (argv : List xstring_t) (j k : Nat) : Prop :=
  arg_count_at argv j ≠ none ∧ arg_count_at argv j ≠ some (-1) ∧
    debugger_at CORECLR argv j = false ∧
    k = if arg_count_at argv j = some 1 then j + 2 else j + 1

/-- The end of a scan whose loop test starts at `i`.  When no token was examined, `i` is
unchanged and the loop is left by its condition.  Otherwise let `j` be the last examined index.
When the token at `j` is not an option, the loop is left by the first `break` with `i = j`.
When it is a debugger option, the loop is left by the second `break` with `i = j`.  In every
other case the scan has gone on to the next index (`j + 2` after an option with one argument,
`j + 1` otherwise), that index is not an index of `argv` any more, and the loop is left by its
condition with `i` standing on that index. -/
def ScanEnd (CORECLR : Bool) (argv : List xstring_t) (i : Nat) (r : ScanResult) : Prop :=
  match r.examined.getLast? with
  | none => r.i = i ∧ r.exit = ScanExit.loop_condition
  | some j =>
    if arg_count_at argv j = some (-1) then
      r.i = j ∧ r.exit = ScanExit.not_an_option
    else if debugger_at CORECLR argv j = true then
      r.i = j ∧ r.exit = ScanExit.debugger
    else
      r.i = (if arg_count_at argv j = some 1 then j + 2 else j + 1) ∧
        argv.length ≤ r.i ∧ r.exit = ScanExit.loop_condition

/-- The facts that describe a scan whose loop test starts at `i`: the first examined index,
the step between examined indices, their bounds, the skipped arguments, the halt at a token that
is not an option, and the end of the scan. -/
structure ScanFacts (CORECLR : Bool) (argv : List xstring_t) (i : Nat) (r : ScanResult) :
    Prop where
  head : r.examined.head? = if i < argv.length then some i else none
  chain : List.Chain' (ScanStep CORECLR argv) r.examined
  bounds : ∀ j ∈ r.examined, i ≤ j ∧ j < argv.length
  skipped : ∀ j ∈ r.examined, arg_count_at argv j = some 1 → j + 1 ∉ r.examined
  halt : ∀ j ∈ r.examined, arg_count_at argv j = some (-1) →
    r.i = j ∧ r.exit = ScanExit.not_an_option ∧ ∀ k ∈ r.examined, k ≤ j
  last : ScanEnd CORECLR argv i r

end entry

/-! ## `dnx.coreclr.cpp` -/

namespace coreclr

open utils

/-- The Windows result code `HRESULT`, a signed 32 bit integer. -/
abbrev HRESULT := Int

/-- The constant `S_OK` of the Windows SDK. -/
def S_OK : HRESULT := 0

/-- The constant `E_FAIL` of the Windows SDK, `0x80004005` read as a signed 32 bit integer. -/
def E_FAIL : HRESULT := -2147467259

/-- The test `FAILED(hr)` of the Windows SDK: `((HRESULT)(hr)) < 0`. -/
def FAILED (hr : HRESULT) : Bool := decide (hr < 0)

/-- The two authentication keys of the hosting interface (constants of `mscoree.h`). -/
inductive AuthKey
  | CORECLR_HOST_AUTHENTICATION_KEY
  | CORECLR_HOST_AUTHENTICATION_KEY_NONGEN
  deriving DecidableEq

/-- The `bootstrapper_context` handed to the managed entry point, with the fields that
`ExecuteMain` sets. -/
structure bootstrapper_context where
  operating_system : xstring_t
  os_version : xstring_t
  processor_count : Nat
  runtime_directory : xstring_t
  application_base : xstring_t
  architecture : xstring_t
  handle_exceptions : Bool
  deriving DecidableEq

/-- The `CALL_APPLICATION_MAIN_DATA` record, with the fields that the code reads and writes. -/
structure CALL_APPLICATION_MAIN_DATA where
  applicationBase : xstring_t
  runtimeDirectory : xstring_t
  argc : Int
  argv : List xstring_t
  exitcode : Int
  deriving DecidableEq

/-- Everything outside the translation unit: the build configuration, the manifest tables of
`tpa.cpp`, the file system, the operating system loader, the hosting interface
`ICLRRuntimeHost2` and the managed entry point.  Each field is the answer to the call of the
same name.  A run makes each call of the loader and of the hosting interface at most once, so
one answer per call describes every behaviour of the interface in a run. -/
structure World where
  /-- The macro `PATH_SEPARATOR` of `xplat.h`. -/
  PATH_SEPARATOR : xstring_t
  /-- The architecture tag chosen by the `AMD64` / `ARM` build flags. -/
  architecture : xstring_t
  /-- The list `CreateTpaBase(bNative)` of `tpa.cpp`: the manifest, native images or IL only. -/
  CreateTpaBase : Bool → List xstring_t
  /-- The test `dnx::utils::file_exists(path)`, that is `GetFileAttributes`. -/
  file_exists : xstring_t → Bool
  /-- Whether `LoadLibraryExW(path, NULL, 0)` returns a module. -/
  LoadLibraryExW : xstring_t → Bool
  /-- Whether `GetModuleHandleExW(GET_MODULE_HANDLE_EX_FLAG_PIN, ...)` succeeds. -/
  GetModuleHandleExW : Bool
  /-- Whether `GetProcAddress(coreclr_module, "GetCLRRuntimeHost")` finds the export. -/
  GetProcAddress : Bool
  /-- The result of the export `GetCLRRuntimeHost`. -/
  GetCLRRuntimeHost : HRESULT
  /-- The result of `ICLRRuntimeHost2::Authenticate(key)`. -/
  Authenticate : AuthKey → HRESULT
  /-- The result of `ICLRRuntimeHost2::Start()`. -/
  Start : HRESULT
  /-- The result of `ICLRRuntimeHost2::CreateAppDomainWithManager` for the given property values
  and the domain id that it stores. -/
  CreateAppDomainWithManager : List xstring_t → HRESULT × Nat
  /-- The result of `ICLRRuntimeHost2::CreateDelegate(domainId, ...)`. -/
  CreateDelegate : Nat → HRESULT
  /-- The string returned by `dnx::utils::get_windows_version()`, `none` for a null pointer. -/
  get_windows_version : Option xstring_t
  /-- The value of `std::thread::hardware_concurrency()`. -/
  hardware_concurrency : Nat
  /-- The managed entry point behind the delegate. -/
  main_function : Int → List xstring_t → bootstrapper_context → Int
  /-- The result of `ICLRRuntimeHost2::UnloadAppDomain(domainId, true)`; the code does not look
  at it. -/
  UnloadAppDomain : Nat → HRESULT
  /-- The result of `ICLRRuntimeHost2::Stop()`. -/
  Stop : HRESULT

/-- The calls that leave the translation unit, in the order in which a run makes them.
`trace_writer.write` and `Win32KDisable` return nothing and decide nothing; they are not
recorded. -/
inductive Event
  | SetEnvironmentVariable (name value : xstring_t)
  | LoadLibraryExW (path : xstring_t)
  | GetModuleHandleExW
  | FreeLibrary
  | GetProcAddress
  | GetCLRRuntimeHost
  | SetStartupFlags
  | Authenticate (key : AuthKey)
  | Start
  | file_exists (path : xstring_t)
  | CreateAppDomainWithManager (property_values : List xstring_t) (hr : HRESULT) (domainId : Nat)
  | CreateDelegate (domainId : Nat)
  | get_windows_version
  | main_function (argc : Int) (argv : List xstring_t) (ctx : bootstrapper_context) (result : Int)
  | UnloadAppDomain (domainId : Nat)
  | Stop
  deriving DecidableEq

/-- The first loop of `GetTrustedPlatformAssembliesList(runtime_directory, bNative, tpa_paths)`:
whether all the files of the manifest exist, with the probes made (the loop returns at the
first missing file). -/
def tpa_files_exist (w : World) (runtime_directory : xstring_t) :
    List xstring_t → Bool × List Event
  | [] => (true, [])
  | assembly_name :: rest =>
    if !w.file_exists (path_combine w.PATH_SEPARATOR runtime_directory assembly_name) then
      (false, [Event.file_exists (path_combine w.PATH_SEPARATOR runtime_directory assembly_name)])
    else
      ((tpa_files_exist w runtime_directory rest).1,
        Event.file_exists (path_combine w.PATH_SEPARATOR runtime_directory assembly_name) ::
          (tpa_files_exist w runtime_directory rest).2)

/-- The second loop of `GetTrustedPlatformAssembliesList(runtime_directory, bNative, tpa_paths)`:
`tpa_paths.append(path_combine(runtime_directory, assembly_name)).append(L";")` for each
manifest entry. -/
def tpa_append (w : World) (runtime_directory : xstring_t) :
    List xstring_t → xstring_t → xstring_t
  | [], tpa_paths => tpa_paths
  | assembly_name :: rest, tpa_paths =>
    tpa_append w runtime_directory rest
      (tpa_paths ++ path_combine w.PATH_SEPARATOR runtime_directory assembly_name ++ [';'])

/-- The function `GetTrustedPlatformAssembliesList(runtime_directory, bNative, tpa_paths)`:
the result, the new value of `tpa_paths` and the probes made. -/
def GetTrustedPlatformAssembliesList_bNative (w : World) (runtime_directory : xstring_t)
    (bNative : Bool) (tpa_paths : xstring_t) : Bool × xstring_t × List Event :=
  -- Scan the directory to see if all the files in TPA list exist
  if !(tpa_files_exist w runtime_directory (w.CreateTpaBase bNative)).1 then
    (false, tpa_paths, (tpa_files_exist w runtime_directory (w.CreateTpaBase bNative)).2)
  else
    (true, tpa_append w runtime_directory (w.CreateTpaBase bNative) tpa_paths,
      (tpa_files_exist w runtime_directory (w.CreateTpaBase bNative)).2)

/-- The function
`GetTrustedPlatformAssembliesList(runtime_directory, trusted_platform_assemblies)`: the result,
the new value of `trusted_platform_assemblies` and the probes made. -/
def GetTrustedPlatformAssembliesList (w : World) (runtime_directory : xstring_t)
    (trusted_platform_assemblies : xstring_t) : Bool × xstring_t × List Event :=
  -- Try native images first
  let native := GetTrustedPlatformAssembliesList_bNative w runtime_directory true
    trusted_platform_assemblies
  if !native.1 then
    let il := GetTrustedPlatformAssembliesList_bNative w runtime_directory false native.2.1
    if !il.1 then
      (false, il.2.1, native.2.2 ++ il.2.2)
    else
      (true, il.2.1, native.2.2 ++ il.2.2)
  else
    (true, native.2.1, native.2.2)

/-- The file name of the runtime library that `LoadCoreClr` loads. -/
def coreclr_dll : xstring_t := "coreclr.dll".toList

/-- The call `SetEnvironmentVariable(L"DNX_FRAMEWORK", L"dnxcore50")`. -/
def set_framework : Event :=
  Event.SetEnvironmentVariable "DNX_FRAMEWORK".toList "dnxcore50".toList

/-- The function `PinModule(module, trace_writer)`. -/
def PinModule (w : World) : Bool × List Event :=
  if !w.GetModuleHandleExW then
    (false, [Event.GetModuleHandleExW])
  else
    (true, [Event.GetModuleHandleExW])

/-- The function `LoadCoreClr(runtime_directory, trace_writer)`: whether a module is returned
(`false` for `nullptr`), and the calls made. -/
def LoadCoreClr (w : World) (runtime_directory : xstring_t) : Bool × List Event :=
  let path := path_combine w.PATH_SEPARATOR runtime_directory coreclr_dll
  if w.LoadLibraryExW path then
    if (PinModule w).1 then
      (true, Event.LoadLibraryExW path :: (PinModule w).2)
    else
      (false, Event.LoadLibraryExW path :: (PinModule w).2 ++ [Event.FreeLibrary])
  else
    (false, [Event.LoadLibraryExW path])

/-- The function `GetClrRuntimeHost(coreclr_module, ppClrRuntimeHost, trace_writer)`. -/
def GetClrRuntimeHost (w : World) : HRESULT × List Event :=
  if !w.GetProcAddress then
    (E_FAIL, [Event.GetProcAddress])
  else
    (w.GetCLRRuntimeHost, [Event.GetProcAddress, Event.GetCLRRuntimeHost])

/-- The function `StartClrHost(pCLRRuntimeHost, trace_writer)`. -/
def StartClrHost (w : World) : HRESULT × List Event :=
  -- Authenticate with either CORECLR_HOST_AUTHENTICATION_KEY or
  -- CORECLR_HOST_AUTHENTICATION_KEY_NONGEN
  let hr := w.Authenticate AuthKey.CORECLR_HOST_AUTHENTICATION_KEY
  if FAILED hr then
    (hr, [Event.SetStartupFlags, Event.Authenticate AuthKey.CORECLR_HOST_AUTHENTICATION_KEY])
  else
    (w.Start, [Event.SetStartupFlags,
      Event.Authenticate AuthKey.CORECLR_HOST_AUTHENTICATION_KEY, Event.Start])

/-- The function `StopClrHost(pCLRRuntimeHost)`. -/
def StopClrHost (w : World) : HRESULT × List Event :=
  (w.Stop, [Event.Stop])

/-- What a run of `ExecuteMain` or `CallApplicationMain` leaves behind: the returned `HRESULT`,
the record behind the `data` pointer, and the calls made. -/
structure Outcome where
  hr : HRESULT
  data : CALL_APPLICATION_MAIN_DATA
  events : List Event
  deriving DecidableEq

/-- The name of the assembly that holds the app domain manager. -/
def domain_manager_dll : xstring_t := "Microsoft.Dnx.Host.CoreClr.dll".toList

/-- The value of the property `AppDomainCompatSwitch`. -/
def compat_switch : xstring_t := "UseLatestBehaviorWhenTFMNotSpecified".toList

/-- The array `property_values` of `ExecuteMain`, in the order of `property_keys`
(`APPBASE`, `TRUSTED_PLATFORM_ASSEMBLIES`, `APP_PATHS`, `AppDomainCompatSwitch`). -/
def property_values (data : CALL_APPLICATION_MAIN_DATA)
    (trusted_platform_assemblies : xstring_t) : List xstring_t :=
  [data.applicationBase, trusted_platform_assemblies, data.runtimeDirectory, compat_switch]

/-- The `bootstrapper_context` that `ExecuteMain` fills in. -/
def make_context (w : World) (data : CALL_APPLICATION_MAIN_DATA) (windows_version : xstring_t) :
    bootstrapper_context :=
  { operating_system := "Windows".toList
    os_version := windows_version
    processor_count := w.hardware_concurrency
    runtime_directory := data.runtimeDirectory
    application_base := data.applicationBase
    architecture := w.architecture
    -- for coreclr we always want to handle exceptions
    handle_exceptions := true }

/-- The part of `ExecuteMain` that follows the construction of the trusted list: from the
array `property_values` to the end of the function.  `events` are the calls made so far. -/
def ExecuteMain_domain (w : World) (data : CALL_APPLICATION_MAIN_DATA) (events : List Event)
    (trusted_platform_assemblies : xstring_t) : Outcome :=
  let values := property_values data trusted_platform_assemblies
  let created := w.CreateAppDomainWithManager values
  let domainId := created.2
  let events1 := events ++ [Event.CreateAppDomainWithManager values created.1 domainId]
  if FAILED created.1 then
    ⟨created.1, data, events1⟩
  else
    let hr := w.CreateDelegate domainId
    let events2 := events1 ++ [Event.CreateDelegate domainId]
    if FAILED hr then
      ⟨hr, data, events2⟩
    else
      match w.get_windows_version with
      | none => ⟨-1, data, events2 ++ [Event.get_windows_version]⟩
      | some windows_version =>
        let ctx := make_context w data windows_version
        -- Call main
        let exitcode := w.main_function data.argc data.argv ctx
        ⟨S_OK, { data with exitcode := exitcode },
          events2 ++ [Event.get_windows_version,
            Event.main_function data.argc data.argv ctx exitcode,
            Event.UnloadAppDomain domainId]⟩

/-- The function `ExecuteMain(pCLRRuntimeHost, data, trace_writer)`: the construction of the
trusted list, then `ExecuteMain_domain`. -/
def ExecuteMain (w : World) (data : CALL_APPLICATION_MAIN_DATA) : Outcome :=
  let tpa := GetTrustedPlatformAssembliesList w data.runtimeDirectory []
  if !tpa.1 then
    ⟨E_FAIL, data, tpa.2.2⟩
  else
    -- Add the assembly containing the app domain manager to the trusted list
    ExecuteMain_domain w data tpa.2.2
      (tpa.2.1 ++ path_combine w.PATH_SEPARATOR data.runtimeDirectory domain_manager_dll)

/-- The function `CallApplicationMain(data)`. -/
def CallApplicationMain (w : World) (data : CALL_APPLICATION_MAIN_DATA) : Outcome :=
  let events0 := [set_framework]
  let coreclr_module := LoadCoreClr w data.runtimeDirectory
  if !coreclr_module.1 then
    ⟨E_FAIL, data, events0 ++ coreclr_module.2⟩
  else
    let host := GetClrRuntimeHost w
    if FAILED host.1 then
      ⟨host.1, data, events0 ++ coreclr_module.2 ++ host.2⟩
    else
      let started := StartClrHost w
      if FAILED started.1 then
        ⟨started.1, data, events0 ++ coreclr_module.2 ++ host.2 ++ started.2⟩
      else
        let executed := ExecuteMain w data
        let events1 := events0 ++ coreclr_module.2 ++ host.2 ++ started.2 ++ executed.events
        if FAILED executed.hr then
          ⟨executed.hr, executed.data, events1⟩
        else
          let stopped := StopClrHost w
          if FAILED stopped.1 then
            ⟨stopped.1, executed.data, events1 ++ stopped.2⟩
          else
            ⟨S_OK, executed.data, events1 ++ stopped.2⟩

/-! ### Vocabulary of the statements -/

/-- The paths of a manifest under a runtime directory, in manifest order. -/
def manifest_paths (w : World) (runtime_directory : xstring_t) (bNative : Bool) :
    List xstring_t :=
  (w.CreateTpaBase bNative).map (path_combine w.PATH_SEPARATOR runtime_directory)

/-- Every file of a manifest exists under the runtime directory. -/
def manifest_exists (w : World) (runtime_directory : xstring_t) (bNative : Bool) : Bool :=
  (manifest_paths w runtime_directory bNative).all w.file_exists

/-- A list of paths written as text: each path followed by the delimiter `;`. -/
def delimited : List xstring_t → xstring_t
  | [] => []
  | path :: rest => path ++ [';'] ++ delimited rest

/-- The paths of the first manifest variant for which every file exists: the native images if
all of them exist, the IL only manifest otherwise. -/
def resolved_paths (w : World) (runtime_directory : xstring_t) : List xstring_t :=
  if manifest_exists w runtime_directory true then manifest_paths w runtime_directory true
  else manifest_paths w runtime_directory false

/-- The property values of a call of `CreateAppDomainWithManager`. -/
def Event.creation_values : Event → Option (List xstring_t)
  | Event.CreateAppDomainWithManager values _ _ => some values
  | _ => none

/-- The result of a call of the managed entry point. -/
def Event.managed_result : Event → Option Int
  | Event.main_function _ _ _ result => some result
  | _ => none

/-- The domain id stored by a call of `CreateAppDomainWithManager` that did not fail. -/
def Event.created_domain : Event → Option Nat
  | Event.CreateAppDomainWithManager _ hr domainId => if FAILED hr then none else some domainId
  | _ => none

/-- The domain id handed to a call of `UnloadAppDomain`. -/
def Event.unloaded_domain : Event → Option Nat
  | Event.UnloadAppDomain domainId => some domainId
  | _ => none

/-- The property values handed to `CreateAppDomainWithManager` in a sequence of calls. -/
def domain_creations (events : List Event) : List (List xstring_t) :=
  events.filterMap Event.creation_values

/-- The results returned by the managed entry point in a sequence of calls. -/
def managed_results (events : List Event) : List Int :=
  events.filterMap Event.managed_result

/-- The calls of the managed entry point in a sequence of calls, with their arguments and
results. -/
def managed_calls (events : List Event) : List Event :=
  events.filter (fun e => (Event.managed_result e).isSome)

/-- The domains that a sequence of calls created. -/
def created_domains (events : List Event) : List Nat :=
  events.filterMap Event.created_domain

/-- The domains that a sequence of calls asked to unload. -/
def unloaded_domains (events : List Event) : List Nat :=
  events.filterMap Event.unloaded_domain

/-- The trusted path list of a run in which the manifest is resolved: the resolved paths, each
followed by `;`, then the path of the domain manager module. -/
def trusted_path_list (w : World) (runtime_directory : xstring_t) : xstring_t :=
  delimited (resolved_paths w runtime_directory) ++
    path_combine w.PATH_SEPARATOR runtime_directory domain_manager_dll

/-- The property values that a run hands to `CreateAppDomainWithManager` once the manifest is
resolved. -/
def domain_values (w : World) (data : CALL_APPLICATION_MAIN_DATA) : List xstring_t :=
  [data.applicationBase, trusted_path_list w data.runtimeDirectory, data.runtimeDirectory,
    compat_switch]

/-- A sequence of calls that only probes the file system. -/
def ProbesOnly (events : List Event) : Prop :=
  ∀ e ∈ events, ∃ p, e = Event.file_exists p

/-- The steps up to the start of the host succeed: `coreclr.dll` is loaded and pinned, the
hosting interface is acquired, the host accepts the authentication and starts. -/
def host_starts (w : World) (data : CALL_APPLICATION_MAIN_DATA) : Bool :=
  w.LoadLibraryExW (path_combine w.PATH_SEPARATOR data.runtimeDirectory coreclr_dll) &&
  w.GetModuleHandleExW &&
  w.GetProcAddress && !FAILED w.GetCLRRuntimeHost &&
  !FAILED (w.Authenticate AuthKey.CORECLR_HOST_AUTHENTICATION_KEY) && !FAILED w.Start

/-- Every step before the managed invocation succeeds: runtime load and pin, host interface
acquisition, authentication and start, manifest resolution, domain creation, delegate creation
and the lookup of the OS version. -/
def bootstrap_succeeds (w : World) (data : CALL_APPLICATION_MAIN_DATA) : Bool :=
  host_starts w data &&
  (manifest_exists w data.runtimeDirectory true || manifest_exists w data.runtimeDirectory false) &&
  !FAILED (w.CreateAppDomainWithManager (domain_values w data)).1 &&
  !FAILED (w.CreateDelegate (w.CreateAppDomainWithManager (domain_values w data)).2) &&
  w.get_windows_version.isSome

/-- The calls of a run up to and including the start of the host, when all of them succeed. -/
def start_events (w : World) (data : CALL_APPLICATION_MAIN_DATA) : List Event :=
  [set_framework,
    Event.LoadLibraryExW (path_combine w.PATH_SEPARATOR data.runtimeDirectory coreclr_dll),
    Event.GetModuleHandleExW, Event.GetProcAddress, Event.GetCLRRuntimeHost,
    Event.SetStartupFlags, Event.Authenticate AuthKey.CORECLR_HOST_AUTHENTICATION_KEY,
    Event.Start]

/-! ### Sample worlds -/

/-- A world in which everything succeeds for the runtime directory `C:\rt`: the native image
`a.ni.dll` is missing, the IL only manifest `a.dll`, `b.dll` is complete, the domain manager
module does not exist as a file, and the managed entry point returns the sum of `36`, its
argument count, the number of its arguments and the processor count of its context (`42` on the
sample data). -/
def sample_world : World where
  PATH_SEPARATOR := ['\\']
  architecture := "x64".toList
  CreateTpaBase := fun bNative =>
    if bNative then ["a.ni.dll".toList, "b.ni.dll".toList] else ["a.dll".toList, "b.dll".toList]
  file_exists := fun path =>
    path == "C:\\rt\\a.dll".toList || path == "C:\\rt\\b.dll".toList ||
      path == "C:\\rt\\b.ni.dll".toList
  LoadLibraryExW := fun _ => true
  GetModuleHandleExW := true
  GetProcAddress := true
  GetCLRRuntimeHost := S_OK
  Authenticate := fun _ => S_OK
  Start := S_OK
  CreateAppDomainWithManager := fun _ => (S_OK, 7)
  CreateDelegate := fun _ => S_OK
  get_windows_version := some "10.0".toList
  hardware_concurrency := 4
  main_function := fun argc argv ctx => 36 + argc + argv.length + ctx.processor_count
  UnloadAppDomain := fun _ => S_OK
  Stop := S_OK

/-- The data of a sample run: application base `C:\app`, runtime directory `C:\rt`, one
argument, exit code `0` so far. -/
def sample_data : CALL_APPLICATION_MAIN_DATA :=
  ⟨"C:\\app".toList, "C:\\rt".toList, 1, ["run".toList], 0⟩

/-- The sample world with every file present, the native images included. -/
def world_with_native_images : World :=
  { sample_world with file_exists := fun _ => true }

/-- The sample world with a host that rejects both authentication keys. -/
def world_rejecting_both_keys : World :=
  { sample_world with Authenticate := fun _ => E_FAIL }

/-- The sample world with a host that rejects the standard key and accepts the key
`CORECLR_HOST_AUTHENTICATION_KEY_NONGEN`. -/
def world_accepting_nongen_only : World :=
  { sample_world with
    Authenticate := fun key =>
      match key with
      | AuthKey.CORECLR_HOST_AUTHENTICATION_KEY => E_FAIL
      | AuthKey.CORECLR_HOST_AUTHENTICATION_KEY_NONGEN => S_OK }

/-- The sample world with a host whose `CreateDelegate` fails. -/
def world_without_delegate : World :=
  { sample_world with CreateDelegate := fun _ => E_FAIL }

end coreclr

/-! ## Theorems about `utils.cpp` -/

namespace utils

theorem toNat_inj {a b : Char} (h : a.toNat = b.toNat) : a = b := by
  apply Char.ext
  apply UInt32.ext
  exact h

theorem toNat_ofNat_small (n : Nat) (h : n < 55296) : (Char.ofNat n).toNat = n := by
  have hv : n.isValidChar := Or.inl h
  rw [Char.ofNat, dif_pos hv]
  rfl

theorem tolower_eq_iff (a b : Char) : tolower a = tolower b ↔ SameUpToAsciiCase a b := by
  unfold tolower SameUpToAsciiCase
  constructor
  · intro h
    split_ifs at h with ha hb hb
    · left
      have := congrArg Char.toNat h
      rw [toNat_ofNat_small _ (by omega), toNat_ofNat_small _ (by omega)] at this
      exact toNat_inj (by omega)
    · right; left
      have := congrArg Char.toNat h
      rw [toNat_ofNat_small _ (by omega)] at this
      omega
    · right; right
      have := congrArg Char.toNat h
      rw [toNat_ofNat_small _ (by omega)] at this
      omega
    · exact Or.inl h
  · rintro (h | ⟨h1, h2, h3⟩ | ⟨h1, h2, h3⟩)
    · rw [h]
    · rw [if_pos ⟨h1, h2⟩, if_neg (by omega)]
      apply toNat_inj
      rw [toNat_ofNat_small _ (by omega)]; omega
    · rw [if_neg (by omega), if_pos ⟨h1, h2⟩]
      apply toNat_inj
      rw [toNat_ofNat_small _ (by omega)]; omega

theorem strings_equal_ignore_case_iff_map (s t : xstring_t) :
    strings_equal_ignore_case s t = true ↔ s.map tolower = t.map tolower := by
  induction s generalizing t with
  | nil => cases t <;> simp [strings_equal_ignore_case]
  | cons a s ih =>
    cases t with
    | nil => simp [strings_equal_ignore_case]
    | cons b t =>
      simp only [strings_equal_ignore_case, List.map_cons, List.cons.injEq]
      by_cases h : tolower a = tolower b
      · simp [h, ih]
      · simp [h]

theorem eqIgnoreCase_iff_map (s t : xstring_t) :
    EqIgnoreCase s t ↔ s.map tolower = t.map tolower := by
  unfold EqIgnoreCase
  induction s generalizing t with
  | nil => cases t <;> simp
  | cons a s ih =>
    cases t with
    | nil => simp
    | cons b t =>
      simp only [List.forall₂_cons, List.map_cons, List.cons.injEq, ih, tolower_eq_iff]

theorem arg_count_eq (t : xstring_t) :
    get_bootstrapper_option_arg_count t =
      if t.map tolower ∈ one_arg_options then 1
      else if t.map tolower ∈ flag_options then 0 else -1 := by
  unfold get_bootstrapper_option_arg_count
  simp only [Bool.or_eq_true, strings_equal_ignore_case_iff_map]
  have e1 : List.map tolower "--appbase".toList = "--appbase".toList := by decide
  have e2 : List.map tolower "--lib".toList = "--lib".toList := by decide
  have e3 : List.map tolower "--packages".toList = "--packages".toList := by decide
  have e4 : List.map tolower "--configuration".toList = "--configuration".toList := by decide
  have e5 : List.map tolower "--framework".toList = "--framework".toList := by decide
  have e6 : List.map tolower "--port".toList = "--port".toList := by decide
  have e7 : List.map tolower "--project".toList = "--project".toList := by decide
  have e8 : List.map tolower "-p".toList = "-p".toList := by decide
  have f1 : List.map tolower "--watch".toList = "--watch".toList := by decide
  have f2 : List.map tolower "--debug".toList = "--debug".toList := by decide
  have f3 : List.map tolower "--bootstrapper-debug".toList = "--bootstrapper-debug".toList := by
    decide
  have f4 : List.map tolower "--help".toList = "--help".toList := by decide
  have f5 : List.map tolower "-h".toList = "-h".toList := by decide
  have f6 : List.map tolower "-?".toList = "-?".toList := by decide
  have f7 : List.map tolower "--version".toList = "--version".toList := by decide
  rw [e1, e2, e3, e4, e5, e6, e7, e8, f1, f2, f3, f4, f5, f6, f7]
  generalize List.map tolower t = l
  simp only [one_arg_options, flag_options, List.mem_cons, List.mem_singleton,
    List.not_mem_nil, or_false, or_assoc]

theorem arg_count_values (t : xstring_t) :
    get_bootstrapper_option_arg_count t = 1 ∨ get_bootstrapper_option_arg_count t = 0 ∨
      get_bootstrapper_option_arg_count t = -1 := by
  unfold get_bootstrapper_option_arg_count
  split_ifs <;> simp

theorem options_lower : ∀ o ∈ one_arg_options ++ flag_options, o.map tolower = o := by decide

theorem options_disjoint : ∀ o ∈ one_arg_options, o ∉ flag_options := by decide

theorem exists_eqIgnoreCase_iff (t : xstring_t) (L : List xstring_t)
    (hL : ∀ o ∈ L, o.map tolower = o) :
    (∃ o ∈ L, EqIgnoreCase t o) ↔ t.map tolower ∈ L := by
  constructor
  · rintro ⟨o, ho, h⟩
    rw [eqIgnoreCase_iff_map, hL o ho] at h
    rw [h]; exact ho
  · intro h
    exact ⟨_, h, by rw [eqIgnoreCase_iff_map, hL _ h]⟩

/-- Claim C1.  For every token `t`, `get_bootstrapper_option_arg_count t` is `1` exactly when
`t` equals, ignoring ASCII letter case, one of `--appbase`, `--lib`, `--packages`,
`--configuration`, `--framework`, `--port`, `--project`, `-p`; it is `0` exactly when `t` equals,
ignoring case, one of `--watch`, `--debug`, `--bootstrapper-debug`, `--help`, `-h`, `-?`,
`--version`; it is `-1` exactly when `t` is none of these.  The result is always one of `-1`,
`0`, `1`, and it is `-1` for `--unknown` and for `run`. -/
theorem get_bootstrapper_option_arg_count_table (t : xstring_t) :
    (get_bootstrapper_option_arg_count t = 1 ↔ ∃ o ∈ one_arg_options, EqIgnoreCase t o) ∧
    (get_bootstrapper_option_arg_count t = 0 ↔ ∃ o ∈ flag_options, EqIgnoreCase t o) ∧
    (get_bootstrapper_option_arg_count t = -1 ↔
      ¬ ∃ o ∈ one_arg_options ++ flag_options, EqIgnoreCase t o) ∧
    (get_bootstrapper_option_arg_count t = -1 ∨ get_bootstrapper_option_arg_count t = 0 ∨
      get_bootstrapper_option_arg_count t = 1) ∧
    get_bootstrapper_option_arg_count "--unknown".toList = -1 ∧
    get_bootstrapper_option_arg_count "run".toList = -1 := by
  have h1 := exists_eqIgnoreCase_iff t one_arg_options
    (fun o ho => options_lower o (List.mem_append_left _ ho))
  have h2 := exists_eqIgnoreCase_iff t flag_options
    (fun o ho => options_lower o (List.mem_append_right _ ho))
  have h3 := exists_eqIgnoreCase_iff t (one_arg_options ++ flag_options) options_lower
  rw [h1, h2, h3, arg_count_eq, List.mem_append]
  refine ⟨?_, ?_, ?_, ?_, by decide, by decide⟩
  · by_cases a : t.map tolower ∈ one_arg_options
    · simp [a]
    · by_cases b : t.map tolower ∈ flag_options <;> simp [a, b]
  · by_cases a : t.map tolower ∈ one_arg_options
    · simp [a, options_disjoint _ a]
    · by_cases b : t.map tolower ∈ flag_options <;> simp [a, b]
  · by_cases a : t.map tolower ∈ one_arg_options
    · simp [a]
    · by_cases b : t.map tolower ∈ flag_options <;> simp [a, b]
  · by_cases a : t.map tolower ∈ one_arg_options
    · simp [a]
    · by_cases b : t.map tolower ∈ flag_options <;> simp [a, b]

/-- Claim C3.  For every separator string `PATH_SEPARATOR`, every non-empty `a` whose last
character is neither `/` nor `\` and every non-empty `b` whose first character is neither `/`
nor `\`, the three calls `path_combine (a ++ "/") b`, `path_combine a ("/" ++ b)` and
`path_combine a b` all return `a ++ PATH_SEPARATOR ++ b`: one separator stands between the two
parts. -/
theorem path_combine_single_separator (PATH_SEPARATOR a b : xstring_t) (ha : a ≠ [])
    (ha2 : a.getLast? ≠ some '/' ∧ a.getLast? ≠ some '\\') (hb : b ≠ [])
    (hb2 : b.head? ≠ some '/' ∧ b.head? ≠ some '\\') :
    path_combine PATH_SEPARATOR (a ++ ['/']) b = a ++ PATH_SEPARATOR ++ b ∧
    path_combine PATH_SEPARATOR a ('/' :: b) = a ++ PATH_SEPARATOR ++ b ∧
    path_combine PATH_SEPARATOR a b = a ++ PATH_SEPARATOR ++ b := by
  have hal : a.length ≠ 0 := by simpa using ha
  have hbl : b.length ≠ 0 := by simpa using hb
  have hends : ends_with_slash a = false := by
    unfold ends_with_slash
    rw [if_pos (by omega)]
    cases h : a.getLast? with
    | none => rfl
    | some c =>
      rw [h] at ha2
      simp at ha2
      simp [ha2.1, ha2.2]
  refine ⟨?_, ?_, ?_⟩
  · simp [path_combine, hbl, ends_with_slash, hb2.1, hb2.2]
  · simp [path_combine, hal, hends]
  · simp [path_combine, hal, hbl, hends, hb2.1, hb2.2]

/-- The instance `a = "a"`, `b = "b"` of claim C3, with `/` as the separator. -/
theorem path_combine_single_separator_witness :
    path_combine ['/'] "a/".toList "b".toList = "a/b".toList ∧
    path_combine ['/'] "a".toList "/b".toList = "a/b".toList ∧
    path_combine ['/'] "a".toList "b".toList = "a/b".toList :=
  path_combine_single_separator ['/'] "a".toList "b".toList (by decide) (by decide) (by decide)
    (by decide)

/-- Claim C10.  The empty string is a two-sided identity of `path_combine`: for every string
`X`, empty or not, with or without separators at its ends, `path_combine "" X = X` and
`path_combine X "" = X`. -/
theorem path_combine_empty_identity (PATH_SEPARATOR X : xstring_t) :
    path_combine PATH_SEPARATOR [] X = X ∧ path_combine PATH_SEPARATOR X [] = X := by
  constructor
  · simp [path_combine]
  · unfold path_combine
    by_cases h : X.length = 0
    · rw [if_pos h]; exact (List.length_eq_zero.mp h).symm
    · rw [if_neg h, if_pos List.length_nil]

end utils

/-! ## Theorems about the option scan of `main.cpp` -/

namespace entry

open utils

theorem waits_for_debugger_arg_count (CORECLR : Bool) (arg : xstring_t)
    (h : waits_for_debugger CORECLR arg = true) : get_bootstrapper_option_arg_count arg = 0 := by
  unfold waits_for_debugger at h
  rw [arg_count_eq]
  simp only [Bool.or_eq_true, Bool.and_eq_true, strings_equal_ignore_case_iff_map] at h
  have f2 : List.map tolower "--debug".toList = "--debug".toList := by decide
  have f3 : List.map tolower "--bootstrapper-debug".toList = "--bootstrapper-debug".toList := by
    decide
  rw [f2, f3] at h
  have hmem : arg.map tolower ∈ flag_options := by
    rcases h with h | ⟨_, h⟩ <;> rw [h] <;> decide
  rw [if_neg (fun h1 => options_disjoint _ h1 hmem), if_pos hmem]

theorem getLast?_cons_cons {α : Type} (a b : α) (l : List α) :
    (a :: b :: l).getLast? = (b :: l).getLast? := by
  simp [List.getLast?_cons_cons]

theorem scanEnd_single {CORECLR : Bool} {argv : List xstring_t} {i i0 : Nat} {x : ScanExit}
    (h : if arg_count_at argv i = some (-1) then x = ScanExit.not_an_option
      else debugger_at CORECLR argv i = true ∧ x = ScanExit.debugger) :
    ScanEnd CORECLR argv i0 ⟨i, [i], x⟩ := by
  unfold ScanEnd
  simp only [List.getLast?_singleton]
  split_ifs at h with h1
  · rw [if_pos h1]; exact ⟨by trivial, h⟩
  · rw [if_neg h1, if_pos h.1]; exact ⟨by trivial, h.2⟩

theorem scanFacts_after {CORECLR : Bool} {argv : List xstring_t} {i i2 : Nat} {r : ScanResult}
    (hi : i < argv.length) (hne : get_bootstrapper_option_arg_count argv[i] ≠ -1)
    (hdbg : debugger_at CORECLR argv i = false)
    (hi2 : i2 = if get_bootstrapper_option_arg_count argv[i] = 1 then i + 2 else i + 1)
    (h : ScanFacts CORECLR argv i2 r) : ScanFacts CORECLR argv i (r.after i) := by
  have hat : arg_count_at argv i = some (get_bootstrapper_option_arg_count argv[i]) := by
    simp [arg_count_at, List.getElem?_eq_getElem hi]
  have hlt : i < i2 := by rw [hi2]; split_ifs <;> omega
  have hnext : (if arg_count_at argv i = some 1 then i + 2 else i + 1) = i2 := by
    rw [hi2, hat]; simp
  refine ⟨?_, ?_, ?_, ?_, ?_, ?_⟩
  · simp [ScanResult.after, hi]
  · simp only [ScanResult.after]
    rw [List.chain'_cons']
    refine ⟨?_, h.chain⟩
    intro k hk
    rw [h.head] at hk
    split_ifs at hk with hlt2
    · simp only [Option.mem_def, Option.some.injEq] at hk
      refine ⟨by simp [hat], by simpa [hat] using hne, hdbg, ?_⟩
      rw [← hk, hnext]
    · simp at hk
  · intro j hj
    simp only [ScanResult.after, List.mem_cons] at hj
    rcases hj with rfl | hj
    · exact ⟨le_refl _, hi⟩
    · have := h.bounds j hj
      exact ⟨by omega, this.2⟩
  · intro j hj hc
    simp only [ScanResult.after, List.mem_cons] at hj ⊢
    rcases hj with rfl | hj
    · rw [hat] at hc
      simp only [Option.some.injEq] at hc
      rw [if_pos hc] at hi2
      intro hmem
      rcases hmem with hmem | hmem
      · omega
      · have := (h.bounds _ hmem).1; omega
    · intro hmem
      rcases hmem with hmem | hmem
      · have := (h.bounds _ hj).1; omega
      · exact h.skipped j hj hc hmem
  · intro j hj hc
    simp only [ScanResult.after, List.mem_cons] at hj ⊢
    rcases hj with rfl | hj
    · rw [hat] at hc
      simp only [Option.some.injEq] at hc
      exact absurd hc hne
    · obtain ⟨h1, h2, h3⟩ := h.halt j hj hc
      refine ⟨h1, h2, ?_⟩
      intro k hk
      rcases hk with rfl | hk
      · have := (h.bounds _ hj).1; omega
      · exact h3 k hk
  · have hl := h.last
    have hh := h.head
    unfold ScanEnd at hl ⊢
    simp only [ScanResult.after]
    cases hex : r.examined with
    | nil =>
      rw [hex] at hl hh
      simp only [List.getLast?_nil] at hl
      simp only [List.head?_nil] at hh
      have hge : ¬ i2 < argv.length := by
        intro hc
        rw [if_pos hc] at hh
        cases hh
      simp only [List.getLast?_singleton]
      rw [if_neg (by simpa [hat] using hne), if_neg (by simp [hdbg]), hnext]
      exact ⟨hl.1, by rw [hl.1]; omega, hl.2⟩
    | cons b t =>
      rw [hex] at hl
      rw [getLast?_cons_cons]
      exact hl

theorem scan_loop_facts (CORECLR : Bool) (argv : List xstring_t) :
    ∀ (fuel i : Nat), 0 < fuel → argv.length < fuel + i →
      ∃ r, scan_loop CORECLR argv fuel i = some r ∧ ScanFacts CORECLR argv i r := by
  intro fuel
  induction fuel with
  | zero => intro i h0; omega
  | succ fuel ih =>
    intro i _ hf
    unfold scan_loop
    by_cases hi : i < argv.length
    · rw [dif_pos hi]
      have hat : arg_count_at argv i = some (get_bootstrapper_option_arg_count argv[i]) := by
        simp [arg_count_at, List.getElem?_eq_getElem hi]
      have hdb : debugger_at CORECLR argv i = waits_for_debugger CORECLR argv[i] := by
        simp [debugger_at, List.getElem?_eq_getElem hi]
      simp only []
      by_cases h1 : get_bootstrapper_option_arg_count argv[i] = -1
      · rw [if_pos h1]
        refine ⟨_, rfl, ?_, ?_, ?_, ?_, ?_, ?_⟩
        · simp [hi]
        · simp
        · simp [hi]
        · simp
        · simp
        · apply scanEnd_single
          rw [if_pos (by rw [hat, h1])]
      · rw [if_neg h1]
        by_cases h2 : get_bootstrapper_option_arg_count argv[i] > 0
        · rw [if_pos h2]
          have hv : get_bootstrapper_option_arg_count argv[i] = 1 := by
            rcases arg_count_values argv[i] with h | h | h <;> omega
          have hnd : debugger_at CORECLR argv i = false := by
            rw [hdb]
            cases hw : waits_for_debugger CORECLR argv[i]
            · rfl
            · have := waits_for_debugger_arg_count CORECLR _ hw
              omega
          obtain ⟨r, hr, hfacts⟩ := ih (i + (get_bootstrapper_option_arg_count argv[i]).toNat + 1)
            (by omega) (by omega)
          refine ⟨r.after i, by rw [hr]; rfl, ?_⟩
          refine scanFacts_after hi h1 hnd ?_ hfacts
          rw [if_pos hv, hv]; rfl
        · rw [if_neg h2]
          have hv : get_bootstrapper_option_arg_count argv[i] ≠ 1 := by omega
          have hw : waits_for_debugger CORECLR argv[i] =
              (strings_equal_ignore_case argv[i] "--bootstrapper-debug".toList ||
                (!CORECLR && strings_equal_ignore_case argv[i] "--debug".toList)) := rfl
          rw [← hw]
          cases h3 : waits_for_debugger CORECLR argv[i]
          · simp only [Bool.false_eq_true, if_false]
            obtain ⟨r, hr, hfacts⟩ := ih (i + 1) (by omega) (by omega)
            refine ⟨r.after i, by rw [hr]; rfl, ?_⟩
            refine scanFacts_after hi h1 (by rw [hdb, h3]) ?_ hfacts
            rw [if_neg hv]
          · simp only [if_true]
            refine ⟨_, rfl, ?_, ?_, ?_, ?_, ?_, ?_⟩
            · simp [hi]
            · simp
            · simp [hi]
            · simp only [List.mem_singleton, forall_eq, hat, Option.some.injEq]
              intro h; exact absurd h hv
            · simp only [List.mem_singleton, forall_eq, hat, Option.some.injEq]
              intro h; exact absurd h h1
            · apply scanEnd_single
              rw [if_neg (by rw [hat]; simpa using h1)]
              exact ⟨by rw [hdb, h3], rfl⟩
    · rw [dif_neg hi]
      refine ⟨_, rfl, ?_, ?_, ?_, ?_, ?_, ?_⟩
      · simp [hi]
      · simp
      · simp
      · simp
      · simp
      · simp [ScanEnd]

theorem scanEnd_last_determines {CORECLR : Bool} {argv : List xstring_t} {i i0 j : Nat}
    {l l0 : List Nat} {ri ri0 : Nat} {x x0 : ScanExit}
    (hl : l.getLast? = some j) (hl0 : l0.getLast? = some j)
    (h : ScanEnd CORECLR argv i ⟨ri, l, x⟩) (h0 : ScanEnd CORECLR argv i0 ⟨ri0, l0, x0⟩) :
    ri = ri0 ∧ x = x0 := by
  unfold ScanEnd at h h0
  simp only [hl, hl0] at h h0
  by_cases h1 : arg_count_at argv j = some (-1)
  · rw [if_pos h1] at h h0
    exact ⟨h.1.trans h0.1.symm, h.2.trans h0.2.symm⟩
  · rw [if_neg h1] at h h0
    by_cases h2 : debugger_at CORECLR argv j = true
    · rw [if_pos h2] at h h0
      exact ⟨h.1.trans h0.1.symm, h.2.trans h0.2.symm⟩
    · rw [if_neg h2] at h h0
      exact ⟨h.1.trans h0.1.symm, h.2.2.trans h0.2.2.symm⟩

theorem scanEnd_last_not_followed {CORECLR : Bool} {argv : List xstring_t} {i j k ri : Nat}
    {x : ScanExit} (h : ScanEnd CORECLR argv i ⟨ri, [j], x⟩) (hs : ScanStep CORECLR argv j k)
    (hk : k < argv.length) : False := by
  unfold ScanEnd at h
  simp only [List.getLast?_singleton] at h
  obtain ⟨-, h1, h2, h3⟩ := hs
  rw [if_neg h1, if_neg (by simp [h2])] at h
  rw [← h3] at h
  omega

theorem scan_unique_core (CORECLR : Bool) (argv : List xstring_t) :
    ∀ (l l0 : List Nat) (i ri ri0 : Nat) (x x0 : ScanExit),
      l.head? = (if i < argv.length then some i else none) →
      l0.head? = (if i < argv.length then some i else none) →
      List.Chain' (ScanStep CORECLR argv) l → List.Chain' (ScanStep CORECLR argv) l0 →
      (∀ j ∈ l, j < argv.length) → (∀ j ∈ l0, j < argv.length) →
      ScanEnd CORECLR argv i ⟨ri, l, x⟩ → ScanEnd CORECLR argv i ⟨ri0, l0, x0⟩ →
      l = l0 ∧ ri = ri0 ∧ x = x0 := by
  intro l
  induction l with
  | nil =>
    intro l0 i ri ri0 x x0 hh hh0 _ _ _ _ he he0
    have hge : ¬ i < argv.length := by
      intro hc
      rw [if_pos hc] at hh
      cases hh
    rw [if_neg hge] at hh0
    have hl0 : l0 = [] := by
      cases l0 with
      | nil => rfl
      | cons a t => cases hh0
    subst hl0
    unfold ScanEnd at he he0
    simp only [List.getLast?_nil] at he he0
    exact ⟨rfl, he.1.trans he0.1.symm, he.2.trans he0.2.symm⟩
  | cons a t ih =>
    intro l0 i ri ri0 x x0 hh hh0 hc hc0 hb hb0 he he0
    have hlt : i < argv.length := by
      by_contra hge
      rw [if_neg hge] at hh
      cases hh
    rw [if_pos hlt] at hh hh0
    have ha : a = i := by simpa using hh
    subst ha
    cases l0 with
    | nil => cases hh0
    | cons a0 t0 =>
      have ha0 : a0 = a := by simpa using hh0
      subst ha0
      cases t with
      | nil =>
        cases t0 with
        | nil =>
          obtain ⟨h1, h2⟩ := scanEnd_last_determines (List.getLast?_singleton _)
            (List.getLast?_singleton _) he he0
          exact ⟨rfl, h1, h2⟩
        | cons k0 t1 =>
          rw [List.chain'_cons] at hc0
          exact (scanEnd_last_not_followed he hc0.1 (hb0 k0 (by simp))).elim
      | cons k t2 =>
        rw [List.chain'_cons] at hc
        cases t0 with
        | nil => exact (scanEnd_last_not_followed he0 hc.1 (hb k (by simp))).elim
        | cons k0 t1 =>
          rw [List.chain'_cons] at hc0
          have hk : k0 = k := by rw [hc.1.2.2.2, hc0.1.2.2.2]
          subst hk
          have hk_lt : k0 < argv.length := hb k0 (by simp)
          have he1 : ScanEnd CORECLR argv k0 ⟨ri, k0 :: t2, x⟩ := by
            unfold ScanEnd at he ⊢
            simp only [getLast?_cons_cons] at he
            cases hg : (k0 :: t2).getLast? with
            | none => simp at hg
            | some j => rw [hg] at he; exact he
          have he2 : ScanEnd CORECLR argv k0 ⟨ri0, k0 :: t1, x0⟩ := by
            unfold ScanEnd at he0 ⊢
            simp only [getLast?_cons_cons] at he0
            cases hg : (k0 :: t1).getLast? with
            | none => simp at hg
            | some j => rw [hg] at he0; exact he0
          obtain ⟨h1, h2, h3⟩ := ih (k0 :: t1) k0 ri ri0 x x0 (by simp [hk_lt])
            (by simp [hk_lt]) hc.2 hc0.2 (fun j hj => hb j (List.mem_cons_of_mem _ hj))
            (fun j hj => hb0 j (List.mem_cons_of_mem _ hj)) he1 he2
          exact ⟨by rw [h1], h2, h3⟩

theorem scanFacts_unique {CORECLR : Bool} {argv : List xstring_t} {i : Nat}
    {r r0 : ScanResult} (h : ScanFacts CORECLR argv i r) (h0 : ScanFacts CORECLR argv i r0) :
    r0 = r := by
  obtain ⟨ri, l, x⟩ := r
  obtain ⟨ri0, l0, x0⟩ := r0
  obtain ⟨h1, h2, h3⟩ := scan_unique_core CORECLR argv l l0 i ri ri0 x x0 h.head h0.head
    h.chain h0.chain (fun j hj => (h.bounds j hj).2) (fun j hj => (h0.bounds j hj).2)
    h.last h0.last
  simp only [ScanResult.mk.injEq]
  exact ⟨h2.symm, h1.symm, h3.symm⟩

/-- Claim C2.  For every argument vector (and either build), the scan of the entry point
returns a result `r`, and `r` is the only result that fits the following description.  The
first examined index is `1`, the first argument after the executable name, when there is one.
From each examined index `j` to the next one the token at `j` is an option other than a
debugger option, and the next index is `j + 2` after an option with one argument and `j + 1`
otherwise (left to right, skipping exactly one argument).  Every examined index is a valid
index after the executable name; the argument after an option with one argument is never
examined.  At an examined token that `get_bootstrapper_option_arg_count` maps to `-1` the loop
is left through its first `break` with `i` at that token, no later token being examined.  The
scan ends only there, at a debugger option, or when the index that follows the last examined
token is past the arguments (`ScanEnd`): after any other option it goes on.  For the arguments
`--appbase`, `/app`, `run` the scan examines the indices `1` and `3` and halts at `run` with
`i = 3`, two positions after the start; for `--watch`, `run` it examines `1` and `2` and
halts on `run` with `i = 2`. -/
theorem bootstrap_scan_halts_at_first_non_option (CORECLR : Bool) (argv : List xstring_t) :
    (∃ r, DnxMain_scan CORECLR argv = some r ∧
      r.examined.head? = (if 1 < argv.length then some 1 else none) ∧
      List.Chain' (ScanStep CORECLR argv) r.examined ∧
      (∀ j ∈ r.examined, 1 ≤ j ∧ j < argv.length) ∧
      (∀ j ∈ r.examined, arg_count_at argv j = some 1 → j + 1 ∉ r.examined) ∧
      (∀ j ∈ r.examined, arg_count_at argv j = some (-1) →
        r.i = j ∧ r.exit = ScanExit.not_an_option ∧ ∀ k ∈ r.examined, k ≤ j) ∧
      ScanEnd CORECLR argv 1 r ∧
      (∀ r0, ScanFacts CORECLR argv 1 r0 → r0 = r)) ∧
    (∀ exe : xstring_t,
      DnxMain_scan CORECLR [exe, "--appbase".toList, "/app".toList, "run".toList] =
        some ⟨3, [1, 3], ScanExit.not_an_option⟩) ∧
    (∀ exe : xstring_t,
      DnxMain_scan CORECLR [exe, "--watch".toList, "run".toList] =
        some ⟨2, [1, 2], ScanExit.not_an_option⟩) := by
  refine ⟨?_, ?_, ?_⟩
  · obtain ⟨r, hr, hf⟩ := scan_loop_facts CORECLR argv (argv.length + 1) 1 (by omega) (by omega)
    exact ⟨r, hr, hf.head, hf.chain, hf.bounds, hf.skipped, hf.halt, hf.last,
      fun r0 h0 => scanFacts_unique hf h0⟩
  · intro exe
    cases CORECLR <;> rfl
  · intro exe
    cases CORECLR <;> rfl

end entry

/-! ## Theorems about `dnx.coreclr.cpp` -/

namespace coreclr

open utils

theorem tpa_files_exist_fst (w : World) (dir : xstring_t) (l : List xstring_t) :
    (tpa_files_exist w dir l).1 = (l.map (path_combine w.PATH_SEPARATOR dir)).all w.file_exists := by
  induction l with
  | nil => rfl
  | cons n rest ih =>
    unfold tpa_files_exist
    by_cases h : w.file_exists (path_combine w.PATH_SEPARATOR dir n) = true
    · simp [h, ih]
    · simp [h]

theorem tpa_files_exist_snd (w : World) (dir : xstring_t) (l : List xstring_t)
    (h : (tpa_files_exist w dir l).1 = true) :
    (tpa_files_exist w dir l).2 =
      (l.map (path_combine w.PATH_SEPARATOR dir)).map Event.file_exists := by
  induction l with
  | nil => rfl
  | cons n rest ih =>
    unfold tpa_files_exist at h ⊢
    by_cases h1 : w.file_exists (path_combine w.PATH_SEPARATOR dir n) = true
    · simp only [h1, Bool.not_true, Bool.false_eq_true, if_false] at h ⊢
      simp [ih h]
    · simp [h1] at h

theorem tpa_files_exist_mem (w : World) (dir : xstring_t) (l : List xstring_t) :
    ∀ e ∈ (tpa_files_exist w dir l).2,
      ∃ p ∈ l.map (path_combine w.PATH_SEPARATOR dir), e = Event.file_exists p := by
  induction l with
  | nil => intro e he; simp [tpa_files_exist] at he
  | cons n rest ih =>
    intro e he
    unfold tpa_files_exist at he
    by_cases h1 : w.file_exists (path_combine w.PATH_SEPARATOR dir n) = true
    · simp only [h1, Bool.not_true, Bool.false_eq_true, if_false, List.mem_cons] at he
      rcases he with rfl | he
      · exact ⟨_, by simp, rfl⟩
      · obtain ⟨p, hp, rfl⟩ := ih e he
        exact ⟨p, by simp only [List.map_cons, List.mem_cons]; exact Or.inr hp, rfl⟩
    · simp only [h1, Bool.not_false, if_true, List.mem_singleton] at he
      exact ⟨_, by simp, he⟩

theorem tpa_append_eq (w : World) (dir : xstring_t) (l : List xstring_t) (out : xstring_t) :
    tpa_append w dir l out = out ++ delimited (l.map (path_combine w.PATH_SEPARATOR dir)) := by
  induction l generalizing out with
  | nil => simp [tpa_append, delimited]
  | cons n rest ih =>
    simp [tpa_append, delimited, ih, List.append_assoc]

theorem bNative_fst (w : World) (dir : xstring_t) (b : Bool) (out : xstring_t) :
    (GetTrustedPlatformAssembliesList_bNative w dir b out).1 = manifest_exists w dir b := by
  unfold GetTrustedPlatformAssembliesList_bNative manifest_exists manifest_paths
  rw [← tpa_files_exist_fst]
  cases h : (tpa_files_exist w dir (w.CreateTpaBase b)).1 <;> simp

theorem bNative_out (w : World) (dir : xstring_t) (b : Bool) (out : xstring_t) :
    (GetTrustedPlatformAssembliesList_bNative w dir b out).2.1 =
      if manifest_exists w dir b then out ++ delimited (manifest_paths w dir b) else out := by
  unfold GetTrustedPlatformAssembliesList_bNative manifest_exists manifest_paths
  rw [← tpa_files_exist_fst]
  cases h : (tpa_files_exist w dir (w.CreateTpaBase b)).1 <;> simp [tpa_append_eq]

theorem bNative_events (w : World) (dir : xstring_t) (b : Bool) (out : xstring_t) :
    (GetTrustedPlatformAssembliesList_bNative w dir b out).2.2 =
      (tpa_files_exist w dir (w.CreateTpaBase b)).2 := by
  unfold GetTrustedPlatformAssembliesList_bNative
  cases h : (tpa_files_exist w dir (w.CreateTpaBase b)).1 <;> simp

theorem tpal_fst (w : World) (dir out : xstring_t) :
    (GetTrustedPlatformAssembliesList w dir out).1 =
      (manifest_exists w dir true || manifest_exists w dir false) := by
  unfold GetTrustedPlatformAssembliesList
  simp only [bNative_fst]
  cases manifest_exists w dir true <;> cases manifest_exists w dir false <;> simp

theorem tpal_out (w : World) (dir out : xstring_t) :
    (GetTrustedPlatformAssembliesList w dir out).2.1 =
      if manifest_exists w dir true then out ++ delimited (manifest_paths w dir true)
      else if manifest_exists w dir false then out ++ delimited (manifest_paths w dir false)
      else out := by
  unfold GetTrustedPlatformAssembliesList
  simp only [bNative_fst, bNative_out]
  cases manifest_exists w dir true <;> cases manifest_exists w dir false <;> simp

theorem tpal_events (w : World) (dir out : xstring_t) :
    (GetTrustedPlatformAssembliesList w dir out).2.2 =
      if manifest_exists w dir true then (tpa_files_exist w dir (w.CreateTpaBase true)).2
      else (tpa_files_exist w dir (w.CreateTpaBase true)).2 ++
        (tpa_files_exist w dir (w.CreateTpaBase false)).2 := by
  unfold GetTrustedPlatformAssembliesList
  simp only [bNative_fst, bNative_events]
  cases manifest_exists w dir true <;> cases manifest_exists w dir false <;> simp

theorem tpal_events_mem (w : World) (dir out : xstring_t) :
    ∀ e ∈ (GetTrustedPlatformAssembliesList w dir out).2.2,
      ∃ p, (p ∈ manifest_paths w dir true ∨ p ∈ manifest_paths w dir false) ∧
        e = Event.file_exists p := by
  intro e he
  rw [tpal_events] at he
  split_ifs at he
  · obtain ⟨p, hp, rfl⟩ := tpa_files_exist_mem w dir _ e he
    exact ⟨p, Or.inl hp, rfl⟩
  · rcases List.mem_append.mp he with he | he
    · obtain ⟨p, hp, rfl⟩ := tpa_files_exist_mem w dir _ e he
      exact ⟨p, Or.inl hp, rfl⟩
    · obtain ⟨p, hp, rfl⟩ := tpa_files_exist_mem w dir _ e he
      exact ⟨p, Or.inr hp, rfl⟩


theorem tpal_probesOnly (w : World) (dir out : xstring_t) :
    ProbesOnly (GetTrustedPlatformAssembliesList w dir out).2.2 := by
  intro e he
  obtain ⟨p, _, rfl⟩ := tpal_events_mem w dir out e he
  exact ⟨p, rfl⟩

theorem tpal_out_resolved (w : World) (dir : xstring_t)
    (h : (manifest_exists w dir true || manifest_exists w dir false) = true) :
    (GetTrustedPlatformAssembliesList w dir []).2.1 = delimited (resolved_paths w dir) := by
  rw [tpal_out]
  unfold resolved_paths
  cases h1 : manifest_exists w dir true
  · cases h2 : manifest_exists w dir false
    · simp [h1, h2] at h
    · simp
  · simp

theorem probesOnly_filterMap {α : Type} (f : Event → Option α)
    (hf : ∀ p, f (Event.file_exists p) = none) {P : List Event} (hP : ProbesOnly P) :
    P.filterMap f = [] := by
  rw [List.filterMap_eq_nil_iff]
  intro e he
  obtain ⟨p, rfl⟩ := hP e he
  exact hf p

theorem probesOnly_not_mem {P : List Event} (hP : ProbesOnly P) {e : Event}
    (he : ∀ p, e ≠ Event.file_exists p) : e ∉ P := by
  intro h
  obtain ⟨p, rfl⟩ := hP e h
  exact he p rfl

theorem ExecuteMain_eq (w : World) (data : CALL_APPLICATION_MAIN_DATA) :
    ExecuteMain w data =
      if (manifest_exists w data.runtimeDirectory true ||
          manifest_exists w data.runtimeDirectory false) = true then
        ExecuteMain_domain w data (GetTrustedPlatformAssembliesList w data.runtimeDirectory []).2.2
          (trusted_path_list w data.runtimeDirectory)
      else ⟨E_FAIL, data, (GetTrustedPlatformAssembliesList w data.runtimeDirectory []).2.2⟩ := by
  unfold ExecuteMain
  simp only [tpal_fst]
  cases hres : (manifest_exists w data.runtimeDirectory true ||
        manifest_exists w data.runtimeDirectory false)
  · simp
  · simp only [Bool.not_true, Bool.false_eq_true, if_false, if_true]
    rw [tpal_out_resolved w _ hres]
    rfl

/-- The outcome of the second part of `ExecuteMain`, by cases. -/
theorem ExecuteMain_domain_cases (w : World) (data : CALL_APPLICATION_MAIN_DATA)
    (P : List Event) (t : xstring_t) :
    ∃ hr id, w.CreateAppDomainWithManager (property_values data t) = (hr, id) ∧
      ((FAILED hr = true ∧ ExecuteMain_domain w data P t =
          ⟨hr, data, P ++ [Event.CreateAppDomainWithManager (property_values data t) hr id]⟩) ∨
       (FAILED hr = false ∧ FAILED (w.CreateDelegate id) = true ∧
        ExecuteMain_domain w data P t = ⟨w.CreateDelegate id, data,
          P ++ [Event.CreateAppDomainWithManager (property_values data t) hr id,
            Event.CreateDelegate id]⟩) ∨
       (FAILED hr = false ∧ FAILED (w.CreateDelegate id) = false ∧
        w.get_windows_version = none ∧
        ExecuteMain_domain w data P t = ⟨-1, data,
          P ++ [Event.CreateAppDomainWithManager (property_values data t) hr id,
            Event.CreateDelegate id, Event.get_windows_version]⟩) ∨
       (FAILED hr = false ∧ FAILED (w.CreateDelegate id) = false ∧
        ∃ v, w.get_windows_version = some v ∧
        ExecuteMain_domain w data P t =
          ⟨S_OK, { data with exitcode :=
              w.main_function data.argc data.argv (make_context w data v) },
          P ++ [Event.CreateAppDomainWithManager (property_values data t) hr id,
            Event.CreateDelegate id, Event.get_windows_version,
            Event.main_function data.argc data.argv (make_context w data v)
              (w.main_function data.argc data.argv (make_context w data v)),
            Event.UnloadAppDomain id]⟩)) := by
  refine ⟨(w.CreateAppDomainWithManager (property_values data t)).1,
    (w.CreateAppDomainWithManager (property_values data t)).2, rfl, ?_⟩
  unfold ExecuteMain_domain
  simp only []
  cases h1 : FAILED (w.CreateAppDomainWithManager (property_values data t)).1
  · cases h2 : FAILED (w.CreateDelegate (w.CreateAppDomainWithManager (property_values data t)).2)
    · cases h3 : w.get_windows_version
      · simp
      · simp
    · simp
  · simp

theorem CallApplicationMain_started (w : World) (data : CALL_APPLICATION_MAIN_DATA)
    (h : host_starts w data = true) :
    CallApplicationMain w data =
      if FAILED (ExecuteMain w data).hr then
        ⟨(ExecuteMain w data).hr, (ExecuteMain w data).data,
          start_events w data ++ (ExecuteMain w data).events⟩
      else
        ⟨if FAILED w.Stop then w.Stop else S_OK, (ExecuteMain w data).data,
          start_events w data ++ (ExecuteMain w data).events ++ [Event.Stop]⟩ := by
  unfold host_starts at h
  simp only [Bool.and_eq_true, Bool.not_eq_true'] at h
  obtain ⟨⟨⟨⟨⟨h1, h2⟩, h3⟩, h4⟩, h5⟩, h6⟩ := h
  unfold CallApplicationMain LoadCoreClr PinModule GetClrRuntimeHost StartClrHost StopClrHost
    start_events
  generalize ExecuteMain w data = ex
  simp only [h1, h2, h3, h4, h5, h6, Bool.not_true, Bool.false_eq_true, if_false, if_true,
    Bool.not_false]
  split_ifs <;> simp

theorem CallApplicationMain_not_started (w : World) (data : CALL_APPLICATION_MAIN_DATA)
    (h : host_starts w data = false) :
    FAILED (CallApplicationMain w data).hr = true ∧
    (CallApplicationMain w data).data = data ∧
    (∀ e ∈ (CallApplicationMain w data).events, e ∈ start_events w data ∨ e = Event.FreeLibrary) ∧
    (Event.Start ∈ (CallApplicationMain w data).events →
      FAILED (w.Authenticate AuthKey.CORECLR_HOST_AUTHENTICATION_KEY) = false) ∧
    ((LoadCoreClr w data.runtimeDirectory).1 = true → FAILED (GetClrRuntimeHost w).1 = false →
      FAILED (w.Authenticate AuthKey.CORECLR_HOST_AUTHENTICATION_KEY) = true →
      (CallApplicationMain w data).hr = w.Authenticate AuthKey.CORECLR_HOST_AUTHENTICATION_KEY ∧
      Event.Authenticate AuthKey.CORECLR_HOST_AUTHENTICATION_KEY ∈
        (CallApplicationMain w data).events) := by
  unfold host_starts at h
  unfold CallApplicationMain LoadCoreClr PinModule GetClrRuntimeHost StartClrHost StopClrHost
    start_events
  simp only []
  have hE : FAILED E_FAIL = true := by decide
  generalize ExecuteMain w data = ex
  cases h1 : w.LoadLibraryExW (path_combine w.PATH_SEPARATOR data.runtimeDirectory coreclr_dll)
  · simp [hE, set_framework]
  cases h2 : w.GetModuleHandleExW
  · simp [hE, set_framework]
  cases h3 : w.GetProcAddress
  · simp [hE, set_framework]
  cases h4 : FAILED w.GetCLRRuntimeHost
  swap
  · simp [h4, set_framework]
  cases h5 : FAILED (w.Authenticate AuthKey.CORECLR_HOST_AUTHENTICATION_KEY)
  swap
  · simp [h4, h5, set_framework]
  cases h6 : FAILED w.Start
  · simp [h1, h2, h3, h4, h5, h6] at h
  · simp [h4, h5, h6, set_framework]

theorem ExecuteMain_cases (w : World) (data : CALL_APPLICATION_MAIN_DATA) :
    ∃ P, ProbesOnly P ∧
      (((manifest_exists w data.runtimeDirectory true ||
          manifest_exists w data.runtimeDirectory false) = false ∧
        ExecuteMain w data = ⟨E_FAIL, data, P⟩) ∨
       ((manifest_exists w data.runtimeDirectory true ||
          manifest_exists w data.runtimeDirectory false) = true ∧
        ∃ hr id, w.CreateAppDomainWithManager (domain_values w data) = (hr, id) ∧
          ((FAILED hr = true ∧ ExecuteMain w data =
              ⟨hr, data, P ++ [Event.CreateAppDomainWithManager (domain_values w data) hr id]⟩) ∨
           (FAILED hr = false ∧ FAILED (w.CreateDelegate id) = true ∧
            ExecuteMain w data = ⟨w.CreateDelegate id, data,
              P ++ [Event.CreateAppDomainWithManager (domain_values w data) hr id,
                Event.CreateDelegate id]⟩) ∨
           (FAILED hr = false ∧ FAILED (w.CreateDelegate id) = false ∧
            w.get_windows_version = none ∧
            ExecuteMain w data = ⟨-1, data,
              P ++ [Event.CreateAppDomainWithManager (domain_values w data) hr id,
                Event.CreateDelegate id, Event.get_windows_version]⟩) ∨
           (FAILED hr = false ∧ FAILED (w.CreateDelegate id) = false ∧
            ∃ v, w.get_windows_version = some v ∧
            ExecuteMain w data =
              ⟨S_OK, { data with exitcode :=
                  w.main_function data.argc data.argv (make_context w data v) },
              P ++ [Event.CreateAppDomainWithManager (domain_values w data) hr id,
                Event.CreateDelegate id, Event.get_windows_version,
                Event.main_function data.argc data.argv (make_context w data v)
                  (w.main_function data.argc data.argv (make_context w data v)),
                Event.UnloadAppDomain id]⟩)))) := by
  refine ⟨(GetTrustedPlatformAssembliesList w data.runtimeDirectory []).2.2,
    tpal_probesOnly _ _ _, ?_⟩
  rw [ExecuteMain_eq]
  cases hres : (manifest_exists w data.runtimeDirectory true ||
      manifest_exists w data.runtimeDirectory false)
  · left; simp
  · right
    refine ⟨rfl, ?_⟩
    rw [if_pos rfl]
    exact ExecuteMain_domain_cases w data _ (trusted_path_list w data.runtimeDirectory)

theorem not_started_filterMap {α : Type} (f : Event → Option α) (w : World)
    (data : CALL_APPLICATION_MAIN_DATA) (hf : ∀ e ∈ start_events w data, f e = none)
    (hfree : f Event.FreeLibrary = none) (h : host_starts w data = false) :
    (CallApplicationMain w data).events.filterMap f = [] := by
  rw [List.filterMap_eq_nil_iff]
  intro e he
  rcases (CallApplicationMain_not_started w data h).2.2.1 e he with h1 | rfl
  · exact hf e h1
  · exact hfree

theorem append_singleton_eq {α : Type} {s : α} :
    ∀ (A pre post : List α), A ++ [s] = pre ++ s :: post → s ∉ A → pre = A ∧ post = [] := by
  intro A
  induction A with
  | nil =>
    intro pre post h _
    cases pre with
    | nil => simpa using h.symm
    | cons a pre =>
      simp only [List.nil_append, List.cons_append, List.cons.injEq] at h
      have := congrArg List.length h.2
      simp at this
      omega
  | cons a A ih =>
    intro pre post h hs
    cases pre with
    | nil =>
      simp only [List.cons_append, List.nil_append, List.cons.injEq] at h
      exact absurd (by rw [h.1]; simp) hs
    | cons b pre =>
      simp only [List.cons_append, List.cons.injEq] at h
      obtain ⟨hpre, hpost⟩ := ih pre post h.2 (fun hm => hs (List.mem_cons_of_mem _ hm))
      exact ⟨by rw [h.1, hpre], hpost⟩

/-- Claim C4.  For every runtime directory, every file-existence oracle and every initial
content `out`, `GetTrustedPlatformAssembliesList` uses the first manifest variant for which
every file exists.  If every native-image file exists it returns `true` and appends to `out` the
native-image paths in manifest order, each followed by `;`, whatever the IL-only files are (and
it probes the native-image paths only).  Otherwise, if every IL-only file exists, it returns
`true` and appends the IL-only paths in manifest order, each followed by `;`.  Otherwise it
returns `false` and leaves `out` unchanged. -/
theorem trusted_list_first_complete_variant (w : World) (runtime_directory out : xstring_t) :
    ((GetTrustedPlatformAssembliesList w runtime_directory out).1,
      (GetTrustedPlatformAssembliesList w runtime_directory out).2.1) =
      (if manifest_exists w runtime_directory true then
        (true, out ++ delimited (manifest_paths w runtime_directory true))
      else if manifest_exists w runtime_directory false then
        (true, out ++ delimited (manifest_paths w runtime_directory false))
      else (false, out)) ∧
    (manifest_exists w runtime_directory true = true →
      (GetTrustedPlatformAssembliesList w runtime_directory out).2.2 =
        (manifest_paths w runtime_directory true).map Event.file_exists) := by
  constructor
  · rw [tpal_fst, tpal_out]
    cases manifest_exists w runtime_directory true <;>
      cases manifest_exists w runtime_directory false <;> simp
  · intro h
    rw [tpal_events, if_pos h]
    have := tpa_files_exist_snd w runtime_directory (w.CreateTpaBase true)
      (by rw [tpa_files_exist_fst]; exact h)
    rw [this]; rfl

/-- Claim C4 on the sample world with every file present: the native images are used, the
probes are those of the two native images, and the list appended to `X;` is
`C:\rt\a.ni.dll;C:\rt\b.ni.dll;`. -/
theorem trusted_list_first_complete_variant_witness :
    GetTrustedPlatformAssembliesList world_with_native_images "C:\\rt".toList "X;".toList =
      (true, "X;C:\\rt\\a.ni.dll;C:\\rt\\b.ni.dll;".toList,
        [Event.file_exists "C:\\rt\\a.ni.dll".toList,
          Event.file_exists "C:\\rt\\b.ni.dll".toList]) := by
  have h := trusted_list_first_complete_variant world_with_native_images "C:\\rt".toList
    "X;".toList
  have h1 := h.1
  have h2 := h.2 (by decide)
  rw [if_pos (by decide)] at h1
  rw [Prod.ext_iff] at h1
  refine Prod.ext h1.1 (Prod.ext (h1.2.trans (by decide)) (h2.trans (by decide)))

/-- Claim C5.  In every run of `ExecuteMain` in which manifest resolution succeeds, with either
variant, `CreateAppDomainWithManager` is called exactly once and the trusted path list handed
to it consists of each resolved manifest path followed by `;`, in manifest order, followed by
`path_combine runtime_directory "Microsoft.Dnx.Host.CoreClr.dll"` and nothing else.  The only
paths whose existence is probed are manifest paths: the domain manager path is appended without
an existence check. -/
theorem trusted_path_list_ends_with_domain_manager (w : World)
    (data : CALL_APPLICATION_MAIN_DATA)
    (h : manifest_exists w data.runtimeDirectory true = true ∨
      manifest_exists w data.runtimeDirectory false = true) :
    domain_creations (ExecuteMain w data).events =
      [[data.applicationBase,
        delimited (resolved_paths w data.runtimeDirectory) ++
          path_combine w.PATH_SEPARATOR data.runtimeDirectory
            "Microsoft.Dnx.Host.CoreClr.dll".toList,
        data.runtimeDirectory,
        "UseLatestBehaviorWhenTFMNotSpecified".toList]] ∧
    (∀ p, Event.file_exists p ∈ (ExecuteMain w data).events →
      p ∈ manifest_paths w data.runtimeDirectory true ∨
      p ∈ manifest_paths w data.runtimeDirectory false) := by
  have hres : (manifest_exists w data.runtimeDirectory true ||
      manifest_exists w data.runtimeDirectory false) = true := by
    rcases h with h | h <;> simp [h]
  have hP := tpal_probesOnly w data.runtimeDirectory []
  have hP0 := probesOnly_filterMap Event.creation_values (fun _ => rfl) hP
  have hmem : ∀ p, Event.file_exists p ∈
      (GetTrustedPlatformAssembliesList w data.runtimeDirectory []).2.2 →
      p ∈ manifest_paths w data.runtimeDirectory true ∨
      p ∈ manifest_paths w data.runtimeDirectory false := by
    intro p hp
    obtain ⟨q, hq, h⟩ := tpal_events_mem _ _ _ _ hp
    cases h; exact hq
  rw [ExecuteMain_eq, if_pos hres]
  obtain ⟨hr, id, -, hc⟩ := ExecuteMain_domain_cases w data
    (GetTrustedPlatformAssembliesList w data.runtimeDirectory []).2.2
    (trusted_path_list w data.runtimeDirectory)
  rcases hc with ⟨-, e⟩ | ⟨-, -, e⟩ | ⟨-, -, -, e⟩ | ⟨-, -, v, -, e⟩ <;> rw [e] <;>
    refine ⟨?_, ?_⟩ <;>
    first
    | (simp [domain_creations, List.filterMap_append, hP0, Event.creation_values,
        property_values, trusted_path_list, domain_manager_dll, compat_switch]; done)
    | (intro p hp; apply hmem; simpa using hp)

/-- Claim C5 on the sample run: the native images are incomplete, the IL only manifest is
resolved, the domain manager module does not exist as a file, and the trusted path list is
`C:\rt\a.dll;C:\rt\b.dll;C:\rt\Microsoft.Dnx.Host.CoreClr.dll`. -/
theorem trusted_path_list_ends_with_domain_manager_witness :
    manifest_exists sample_world sample_data.runtimeDirectory true = false ∧
    sample_world.file_exists "C:\\rt\\Microsoft.Dnx.Host.CoreClr.dll".toList = false ∧
    domain_creations (ExecuteMain sample_world sample_data).events =
      [["C:\\app".toList,
        "C:\\rt\\a.dll;C:\\rt\\b.dll;C:\\rt\\Microsoft.Dnx.Host.CoreClr.dll".toList,
        "C:\\rt".toList, "UseLatestBehaviorWhenTFMNotSpecified".toList]] :=
  ⟨by decide, by decide,
    (trusted_path_list_ends_with_domain_manager sample_world sample_data
      (Or.inr (by decide))).1.trans (by decide)⟩

/-- Claim C6.  For every behaviour of the world, `CallApplicationMain` propagates the managed
result faithfully.  If every bootstrap step succeeds, the managed entry point is invoked exactly
once, with `data->argc`, `data->argv` and the context that `ExecuteMain` fills in, and
`data->exitcode` is the integer that this invocation of the entry point returned.  If some step
before the managed invocation fails (runtime load or pin, host interface acquisition,
authentication or start, manifest resolution, domain creation, delegate creation, OS version
lookup), the managed entry point is never invoked, `data->exitcode` is unchanged, and the
returned `HRESULT` is non-zero and satisfies `FAILED`. -/
theorem exit_code_propagation (w : World) (data : CALL_APPLICATION_MAIN_DATA) :
    if bootstrap_succeeds w data = true then
      ∃ v, w.get_windows_version = some v ∧
        managed_calls (CallApplicationMain w data).events =
          [Event.main_function data.argc data.argv (make_context w data v)
            (w.main_function data.argc data.argv (make_context w data v))] ∧
        (CallApplicationMain w data).data.exitcode =
          w.main_function data.argc data.argv (make_context w data v) ∧
        managed_results (CallApplicationMain w data).events =
          [(CallApplicationMain w data).data.exitcode]
    else
      managed_results (CallApplicationMain w data).events = [] ∧
      (CallApplicationMain w data).data.exitcode = data.exitcode ∧
      FAILED (CallApplicationMain w data).hr = true ∧
      (CallApplicationMain w data).hr ≠ 0 := by
  have hne : ∀ hr : HRESULT, FAILED hr = true → hr ≠ 0 := by
    intro hr h h0
    rw [h0] at h
    exact absurd h (by decide)
  unfold bootstrap_succeeds
  cases hs : host_starts w data
  · rw [if_neg (by simp)]
    have h := CallApplicationMain_not_started w data hs
    refine ⟨?_, by rw [h.2.1], h.1, hne _ h.1⟩
    exact not_started_filterMap _ w data
      (by simp [start_events, set_framework, Event.managed_result]) rfl hs
  · rw [CallApplicationMain_started w data hs]
    obtain ⟨P, hP, hc⟩ := ExecuteMain_cases w data
    have hP0 := probesOnly_filterMap Event.managed_result (fun _ => rfl) hP
    have hPf : P.filter (fun e => (Event.managed_result e).isSome) = [] := by
      rw [List.filter_eq_nil_iff]
      intro e he
      obtain ⟨p, rfl⟩ := hP e he
      simp [Event.managed_result]
    have hE : FAILED E_FAIL = true := by decide
    have hm1 : FAILED (-1) = true := by decide
    have hS : FAILED S_OK = false := by decide
    rcases hc with ⟨hres, e⟩ | ⟨hres, hr, id, hcr, hc⟩
    · rw [e, hres]
      simp [hE, managed_results, List.filterMap_append, hP0, start_events, set_framework,
        Event.managed_result]
      exact hne _ hE
    · rw [hres, hcr]
      rcases hc with ⟨h1, e⟩ | ⟨h1, h2, e⟩ | ⟨h1, h2, h3, e⟩ | ⟨h1, h2, v, h3, e⟩
      · rw [e]
        simp [h1, managed_results, List.filterMap_append, hP0, start_events, set_framework,
          Event.managed_result]
        exact hne _ h1
      · rw [e]
        simp [h1, h2, managed_results, List.filterMap_append, hP0, start_events, set_framework,
          Event.managed_result]
        exact hne _ h2
      · rw [e]
        simp [h1, h2, h3, hm1, managed_results, List.filterMap_append, hP0, start_events,
          set_framework, Event.managed_result]
      · rw [e, if_pos (by simp [h1, h2, h3])]
        refine ⟨v, h3, ?_, ?_, ?_⟩
        · simp only [hS, Bool.false_eq_true, if_false, managed_calls, List.filter_append, hPf]
          rfl
        · simp [hS]
        · simp [hS, managed_results, List.filterMap_append, hP0, start_events, set_framework,
            Event.managed_result]

/-- Claim C6 on two sample runs: in the sample world every step succeeds, the entry point is
called once and the exit code is the `42` that it returns on the sample data; with a failing
`CreateDelegate` the entry point is not called, the exit code stays `0` and the run returns a
failure. -/
theorem exit_code_propagation_witness :
    (bootstrap_succeeds sample_world sample_data = true ∧
      managed_results (CallApplicationMain sample_world sample_data).events = [42] ∧
      (CallApplicationMain sample_world sample_data).data.exitcode = 42) ∧
    (bootstrap_succeeds world_without_delegate sample_data = false ∧
      managed_results (CallApplicationMain world_without_delegate sample_data).events = [] ∧
      (CallApplicationMain world_without_delegate sample_data).data.exitcode = 0 ∧
      FAILED (CallApplicationMain world_without_delegate sample_data).hr = true) := by
  have h1 := exit_code_propagation sample_world sample_data
  have h2 := exit_code_propagation world_without_delegate sample_data
  rw [if_pos (by decide)] at h1
  rw [if_neg (by decide)] at h2
  obtain ⟨v, hv, -, hexit, hres⟩ := h1
  have hv0 : v = "10.0".toList := (Option.some.inj hv).symm
  subst hv0
  have h42 : (CallApplicationMain sample_world sample_data).data.exitcode = 42 :=
    hexit.trans (by decide)
  exact ⟨⟨by decide, by rw [hres, h42], h42⟩, by decide, h2.1, h2.2.1, h2.2.2.1⟩

/-- Claim C7.  In every run of `CallApplicationMain` in which the host rejects both accepted
authentication keys, the session ends in failure: the returned `HRESULT` satisfies `FAILED`
and, when the run gets as far as authentication (the runtime is loaded and pinned and the
hosting interface acquired), it is the failing result of `Authenticate`.  None of the later host
operations is invoked: the host is never started, no execution domain is created, the managed
entry point is not called, `Stop` is never invoked, and the data record is unchanged. -/
theorem authentication_failure_ends_session (w : World) (data : CALL_APPLICATION_MAIN_DATA)
    (h1 : FAILED (w.Authenticate AuthKey.CORECLR_HOST_AUTHENTICATION_KEY) = true)
    (_h2 : FAILED (w.Authenticate AuthKey.CORECLR_HOST_AUTHENTICATION_KEY_NONGEN) = true) :
    FAILED (CallApplicationMain w data).hr = true ∧
    ((LoadCoreClr w data.runtimeDirectory).1 = true → FAILED (GetClrRuntimeHost w).1 = false →
      (CallApplicationMain w data).hr = w.Authenticate AuthKey.CORECLR_HOST_AUTHENTICATION_KEY ∧
      Event.Authenticate AuthKey.CORECLR_HOST_AUTHENTICATION_KEY ∈
        (CallApplicationMain w data).events) ∧
    Event.Start ∉ (CallApplicationMain w data).events ∧
    domain_creations (CallApplicationMain w data).events = [] ∧
    managed_results (CallApplicationMain w data).events = [] ∧
    Event.Stop ∉ (CallApplicationMain w data).events ∧
    (CallApplicationMain w data).data = data := by
  have hs : host_starts w data = false := by simp [host_starts, h1]
  have h := CallApplicationMain_not_started w data hs
  refine ⟨h.1, fun ha hb => h.2.2.2.2 ha hb h1, ?_, ?_, ?_, ?_, h.2.1⟩
  · intro hstart
    have := h.2.2.2.1 hstart
    rw [h1] at this
    exact absurd this (by decide)
  · exact not_started_filterMap _ w data
      (by simp [start_events, set_framework, Event.creation_values]) rfl hs
  · exact not_started_filterMap _ w data
      (by simp [start_events, set_framework, Event.managed_result]) rfl hs
  · intro hstop
    rcases h.2.2.1 _ hstop with h3 | h3
    · simp [start_events, set_framework] at h3
    · cases h3

/-- Claim C7 on the sample world with a host that rejects both keys: the run returns `E_FAIL`
and neither `Start` nor `Stop` is invoked. -/
theorem authentication_failure_ends_session_witness :
    (CallApplicationMain world_rejecting_both_keys sample_data).hr = E_FAIL ∧
    Event.Start ∉ (CallApplicationMain world_rejecting_both_keys sample_data).events ∧
    Event.Stop ∉ (CallApplicationMain world_rejecting_both_keys sample_data).events := by
  have h := authentication_failure_ends_session world_rejecting_both_keys sample_data
    (by decide) (by decide)
  exact ⟨(h.2.1 (by decide) (by decide)).1, h.2.2.1, h.2.2.2.2.2.1⟩

/-- Claim C8 fails as stated: a host that rejects the standard key, accepts the key
`CORECLR_HOST_AUTHENTICATION_KEY_NONGEN` and whose `Start` succeeds makes `StartClrHost` fail;
only the standard key is presented and `Start` is not called. -/
theorem nongen_key_is_not_tried :
    FAILED (world_accepting_nongen_only.Authenticate
      AuthKey.CORECLR_HOST_AUTHENTICATION_KEY) = true ∧
    FAILED (world_accepting_nongen_only.Authenticate
      AuthKey.CORECLR_HOST_AUTHENTICATION_KEY_NONGEN) = false ∧
    FAILED world_accepting_nongen_only.Start = false ∧
    FAILED (StartClrHost world_accepting_nongen_only).1 = true ∧
    (StartClrHost world_accepting_nongen_only).2 =
      [Event.SetStartupFlags, Event.Authenticate AuthKey.CORECLR_HOST_AUTHENTICATION_KEY] := by
  decide

/-- Claim C8, amended.  `StartClrHost` authenticates with the standard key
`CORECLR_HOST_AUTHENTICATION_KEY` only.  It returns the result of `Authenticate` when that
fails and the result of `Start` otherwise, so it succeeds exactly when the host accepts the
standard key and `Start` succeeds; `Start` is called exactly when the standard key is accepted;
the standard key is always presented and the key `CORECLR_HOST_AUTHENTICATION_KEY_NONGEN`
never. -/
theorem start_uses_standard_key_only (w : World) :
    (StartClrHost w).1 =
      (if FAILED (w.Authenticate AuthKey.CORECLR_HOST_AUTHENTICATION_KEY) then
        w.Authenticate AuthKey.CORECLR_HOST_AUTHENTICATION_KEY
      else w.Start) ∧
    (FAILED (StartClrHost w).1 = false ↔
      (FAILED (w.Authenticate AuthKey.CORECLR_HOST_AUTHENTICATION_KEY) = false ∧
        FAILED w.Start = false)) ∧
    (Event.Start ∈ (StartClrHost w).2 ↔
      FAILED (w.Authenticate AuthKey.CORECLR_HOST_AUTHENTICATION_KEY) = false) ∧
    Event.Authenticate AuthKey.CORECLR_HOST_AUTHENTICATION_KEY ∈ (StartClrHost w).2 ∧
    Event.Authenticate AuthKey.CORECLR_HOST_AUTHENTICATION_KEY_NONGEN ∉ (StartClrHost w).2 := by
  unfold StartClrHost
  cases h : FAILED (w.Authenticate AuthKey.CORECLR_HOST_AUTHENTICATION_KEY) <;> simp [h]

/-- Claim C9 fails as stated: in the sample world with a failing `CreateDelegate` the domain
`7` is created, `CallApplicationMain` returns `E_FAIL`, and `UnloadAppDomain` is not invoked
(nor is `Stop`). -/
theorem domain_kept_when_delegate_creation_fails :
    created_domains (CallApplicationMain world_without_delegate sample_data).events = [7] ∧
    unloaded_domains (CallApplicationMain world_without_delegate sample_data).events = [] ∧
    Event.Stop ∉ (CallApplicationMain world_without_delegate sample_data).events ∧
    (CallApplicationMain world_without_delegate sample_data).hr = E_FAIL := by
  decide

/-- Claim C9, amended.  In every run of `CallApplicationMain` in which
`CreateAppDomainWithManager` succeeds and delegate creation and the OS version lookup succeed,
`UnloadAppDomain` is invoked for the created domain, after the managed call and before any call
of `Stop`.  In every run, whenever `Stop` is invoked, `UnloadAppDomain` has been invoked before
for every domain created before. -/
theorem domain_unloaded_before_stop (w : World) (data : CALL_APPLICATION_MAIN_DATA) :
    (∀ id ∈ created_domains (CallApplicationMain w data).events,
      FAILED (w.CreateDelegate id) = false → w.get_windows_version.isSome = true →
      ∃ pre post, (CallApplicationMain w data).events = pre ++ Event.UnloadAppDomain id :: post ∧
        Event.Stop ∉ pre ∧ managed_results pre = [(CallApplicationMain w data).data.exitcode]) ∧
    (∀ pre post, (CallApplicationMain w data).events = pre ++ Event.Stop :: post →
      ∀ id ∈ created_domains pre, id ∈ unloaded_domains pre) := by
  cases hs : host_starts w data
  · have h := CallApplicationMain_not_started w data hs
    have hc : created_domains (CallApplicationMain w data).events = [] :=
      not_started_filterMap _ w data
        (by simp [start_events, set_framework, Event.created_domain]) rfl hs
    constructor
    · intro id hid
      rw [hc] at hid
      cases hid
    · intro pre post he
      have hstop : Event.Stop ∈ (CallApplicationMain w data).events := by rw [he]; simp
      rcases h.2.2.1 _ hstop with h3 | h3
      · simp [start_events, set_framework] at h3
      · cases h3
  · rw [CallApplicationMain_started w data hs]
    obtain ⟨P, hP, hc⟩ := ExecuteMain_cases w data
    have hPc := probesOnly_filterMap Event.created_domain (fun _ => rfl) hP
    have hPu := probesOnly_filterMap Event.unloaded_domain (fun _ => rfl) hP
    have hPm := probesOnly_filterMap Event.managed_result (fun _ => rfl) hP
    have hPs : Event.Stop ∉ P := probesOnly_not_mem hP (fun _ h => by cases h)
    have hE : FAILED E_FAIL = true := by decide
    have hm1 : FAILED (-1) = true := by decide
    have hS : FAILED S_OK = false := by decide
    rcases hc with ⟨hres, e⟩ | ⟨hres, hr, id, hcr, hc⟩
    · rw [e]
      simp only [hE, if_true]
      constructor
      · intro id hid
        simp [created_domains, List.filterMap_append, hPc, start_events, set_framework,
          Event.created_domain] at hid
      · intro pre post he
        have hstop : Event.Stop ∈ start_events w data ++ P := by rw [he]; simp
        simp [start_events, set_framework, hPs] at hstop
    · rcases hc with ⟨h1, e⟩ | ⟨h1, h2, e⟩ | ⟨h1, h2, h3, e⟩ | ⟨h1, h2, v, h3, e⟩
      · rw [e]
        simp only [h1, if_true]
        constructor
        · intro id2 hid
          simp [created_domains, List.filterMap_append, hPc, start_events, set_framework,
            Event.created_domain, h1] at hid
        · intro pre post he
          have hstop : Event.Stop ∈ start_events w data ++
              (P ++ [Event.CreateAppDomainWithManager (domain_values w data) hr id]) := by
            rw [he]; simp
          simp [start_events, set_framework, hPs] at hstop
      · rw [e]
        simp only [h2, if_true]
        constructor
        · intro id2 hid hd
          simp [created_domains, List.filterMap_append, hPc, start_events, set_framework,
            Event.created_domain, h1] at hid
          rw [hid, h2] at hd
          cases hd
        · intro pre post he
          have hstop : Event.Stop ∈ start_events w data ++
              (P ++ [Event.CreateAppDomainWithManager (domain_values w data) hr id,
                Event.CreateDelegate id]) := by
            rw [he]; simp
          simp [start_events, set_framework, hPs] at hstop
      · rw [e]
        simp only [hm1, if_true]
        constructor
        · intro id2 _ _ hv
          rw [h3] at hv
          cases hv
        · intro pre post he
          have hstop : Event.Stop ∈ start_events w data ++
              (P ++ [Event.CreateAppDomainWithManager (domain_values w data) hr id,
                Event.CreateDelegate id, Event.get_windows_version]) := by
            rw [he]; simp
          simp [start_events, set_framework, hPs] at hstop
      · rw [e]
        simp only [hS, Bool.false_eq_true, if_false]
        constructor
        · intro id2 hid _ _
          simp [created_domains, List.filterMap_append, hPc, start_events, set_framework,
            Event.created_domain, h1] at hid
          subst hid
          refine ⟨start_events w data ++ (P ++
            [Event.CreateAppDomainWithManager (domain_values w data) hr id2,
              Event.CreateDelegate id2, Event.get_windows_version,
              Event.main_function data.argc data.argv (make_context w data v)
                (w.main_function data.argc data.argv (make_context w data v))]),
            [Event.Stop], by simp, ?_, ?_⟩
          · simp [start_events, set_framework, hPs]
          · simp [managed_results, List.filterMap_append, hPm, start_events, set_framework,
              Event.managed_result]
        · intro pre post he
          obtain ⟨hpre, -⟩ := append_singleton_eq _ pre post he
            (by simp [start_events, set_framework, hPs])
          rw [hpre]
          intro id2 hid
          simp [created_domains, List.filterMap_append, hPc, start_events, set_framework,
            Event.created_domain, h1] at hid
          simp [unloaded_domains, List.filterMap_append, hPu, start_events, set_framework,
            Event.unloaded_domain, hid]

/-- Claim C9, amended, on the sample run: the domain `7` is created, and `UnloadAppDomain 7` is
invoked after the managed call returned `42` and before `Stop`. -/
theorem domain_unloaded_before_stop_witness :
    created_domains (CallApplicationMain sample_world sample_data).events = [7] ∧
    ∃ pre post, (CallApplicationMain sample_world sample_data).events =
        pre ++ Event.UnloadAppDomain 7 :: post ∧
      Event.Stop ∉ pre ∧ managed_results pre = [42] ∧ Event.Stop ∈ post := by
  refine ⟨by decide, ?_⟩
  obtain ⟨pre, post, h1, h2, h3⟩ :=
    (domain_unloaded_before_stop sample_world sample_data).1 7 (by decide) (by decide)
      (by decide)
  refine ⟨pre, post, h1, h2, h3.trans (by decide), ?_⟩
  have hstop : Event.Stop ∈ (CallApplicationMain sample_world sample_data).events := by decide
  rw [h1] at hstop
  rcases List.mem_append.mp hstop with h | h
  · exact absurd h h2
  · rcases List.mem_cons.mp h with h | h
    · cases h
    · exact h

end coreclr

end dnx
